import Mathlib

/-!
Verification of the seabird IRC state plugin (package `state`).

The definitions below are a shallow embedding of the Go source:
`casemapping.go`, `isupport.go` and the membership-tracking variant of the
state module (`State`, its handlers and the membership store).  Go maps are
embedded as functions into `Option`, Go map-sets (`map[string]bool`,
`map[rune]bool`) as lists used as sets, and Go strings as Lean `String`
(rune-wise; the source only ever manipulates ASCII data in the paths
modelled here).  Handlers that in Go only log (the MODE interpreter) are
embedded as functions returning the list of effects corresponding to the
log statements, in order.
-/

namespace Seabird

/-! ## Definitions: shallow embedding of the source -/

/-- Finite map embedding of a Go map: total function into `Option`. -/
def Fmap (κ α : Type) := κ → Option α

/-- Go `m[k] = v`. -/
def fput {κ α : Type} [DecidableEq κ] (m : Fmap κ α) (k : κ) (v : α) : Fmap κ α :=
  fun k' => if k' = k then some v else m k'

/-- Go `delete(m, k)`. -/
def fdel {κ α : Type} [DecidableEq κ] (m : Fmap κ α) (k : κ) : Fmap κ α :=
  fun k' => if k' = k then none else m k'

/-- Go mutation through a pointer obtained from a map lookup: update the
entry at `k` when present, identity otherwise (the source only performs
this on entries it has just ensured exist; when the entry is absent the
Go code would write through a nil map, which no modelled path reaches). -/
def falter {κ α : Type} [DecidableEq κ] (m : Fmap κ α) (k : κ) (f : α → α) : Fmap κ α :=
  fun k' => if k' = k then (m k).map f else m k'

/-- The empty Go map. -/
def fempty {κ α : Type} : Fmap κ α := fun _ => none

/-- Go `set[x] = true` on a `map[...]bool` used as a set. -/
def listInsert {α : Type} [DecidableEq α] (x : α) (l : List α) : List α :=
  if x ∈ l then l else x :: l

/-- Go `delete(set, x)` on a `map[...]bool` used as a set. -/
def listRemove {α : Type} [DecidableEq α] (x : α) (l : List α) : List α :=
  l.filter (fun y => y ≠ x)

/-- ASCIIToLower lowercases a rune per the "ascii" CASEMAPPING setting. -/
def ASCIIToLower (r : Char) : Char :=
  if 65 ≤ r.toNat ∧ r.toNat ≤ 90 then Char.ofNat (r.toNat + 32) else r

/-- StrictRFC1459ToLower lowercases a rune per "strict-rfc1459". -/
def StrictRFC1459ToLower (r : Char) : Char :=
  if 65 ≤ r.toNat ∧ r.toNat ≤ 93 then Char.ofNat (r.toNat + 32) else r

/-- RFC1459ToLower lowercases a rune per "rfc1459". -/
def RFC1459ToLower (r : Char) : Char :=
  if 65 ≤ r.toNat ∧ r.toNat ≤ 94 then Char.ofNat (r.toNat + 32) else r

/-- Go `strings.Map` restricted to total rune mappings. -/
def strMap (f : Char → Char) (s : String) : String := ⟨s.data.map f⟩

/-- Strings fixed by rfc1459 lowering (these are the strings the store
uses as keys when the capability table is empty). -/
def rfcFixed (s : String) : Prop := strMap RFC1459ToLower s = s

/-- UserState: away flag and the set of channels shared with the bot. -/
structure UserState where
  Away : Bool
  Channels : List String
deriving DecidableEq

/-- ChannelState: the set of member nicknames. -/
structure ChannelState where
  Users : List String
deriving DecidableEq

/-- State: the plugin's tracked session state. -/
structure GoState where
  currentNick : String
  userModes : List Char
  chanTypes : List Char
  chanModes : List (List Char)
  isupport : Fmap String String
  prefixModes : Fmap Char Char
  modePrefixes : Fmap Char Char
  Channels : Fmap String ChannelState
  Users : Fmap String UserState

/-- isupportDefaults: the static default table (source literal order). -/
def isupportDefaults : List (String × String) :=
  [("CASEMAPPING", "rfc1459"),
   ("CHANNELLEN", "200"),
   ("CHANTYPES", "#&"),
   ("EXCEPTS", ""),
   ("IDCHAN", ""),
   ("INVEX", ""),
   ("MODES", "3"),
   ("NICKLEN", "9"),
   ("PREFIX", "(ov)@+"),
   ("SAFELIST", ""),
   ("STATUSMSG", ""),
   ("STD", ""),
   ("TARGMAX", "")]

/-- ISupport returns the value for a server setting as reported by the
server, else the default, else the empty string. -/
def ISupport (s : GoState) (name : String) : String :=
  match s.isupport name with
  | some v => v
  | none =>
    match isupportDefaults.lookup name with
    | some v => v
    | none => ""

/-- ToLower lowercases per the current CASEMAPPING setting. -/
def ToLower (s : GoState) (name : String) : String :=
  let cm := ISupport s "CASEMAPPING"
  if cm = "ascii" then strMap ASCIIToLower name
  else if cm = "strict-rfc1459" then strMap StrictRFC1459ToLower name
  else strMap RFC1459ToLower name

/-- Normalize is ToLower of the current CASEMAPPING setting. -/
def Normalize (s : GoState) (name : String) : String := ToLower s name

/-- Go `strings.SplitN(s, "=", 2)`: characters before the first `=`, and
the remainder after it when present. -/
def splitEq : List Char → List Char × Option (List Char)
  | [] => ([], none)
  | '=' :: rest => ([], some rest)
  | c :: rest =>
    let r := splitEq rest
    (c :: r.1, r.2)

/-- Go `strings.SplitN(s, ",", n)` for unbounded n (the source reads only
the first four pieces, on which the two agree). `""` splits to `[""]`. -/
def splitComma : List Char → List (List Char)
  | [] => [[]]
  | ',' :: rest => [] :: splitComma rest
  | c :: rest =>
    match splitComma rest with
    | g :: gs => (c :: g) :: gs
    | [] => [[c]]

/-- Leftmost match of the source's regular expression for PREFIX values
(an opening paren, a nonempty run of non-paren characters as group one, a
closing paren, and a nonempty remainder as group two). -/
def findPrefixMatch : List Char → Option (List Char × List Char)
  | [] => none
  | '(' :: rest =>
    (match rest.dropWhile (fun c => c ≠ ')') with
     | ')' :: rem =>
       let grp := rest.takeWhile (fun c => c ≠ ')')
       if grp ≠ [] ∧ rem ≠ [] then some (grp, rem) else findPrefixMatch rest
     | _ => findPrefixMatch rest)
  | _ :: rest => findPrefixMatch rest

/-- callback004 records the user modes from RPL_MYINFO's fourth field. -/
def callback004 (st : GoState) (params : List String) : GoState :=
  let umodes := params.getD 3 ""
  {st with userModes := umodes.data.foldl (fun l c => listInsert c l) []}

/-- One iteration of callback005's token loop: split on the first `=`,
normalize the key, reset (`-KEY`) or store, then re-resolve through
ISupport and run the special handling for `chanmodes` / `prefix`. -/
def apply005Token (st : GoState) (tok : String) : GoState :=
  let sp := splitEq tok.data
  let key : String := Normalize st ⟨sp.1⟩
  let value : String := ⟨sp.2.getD []⟩
  let st' :=
    if key.data.head? = some '-' then
      {st with isupport := fdel st.isupport ⟨key.data.drop 1⟩}
    else
      {st with isupport := fput st.isupport key value}
  let resolved := ISupport st' key
  if key = "chanmodes" then
    {st' with chanModes := (List.range 4).map (fun i => (splitComma resolved.data).getD i [])}
  else if key = "prefix" then
    let st'' := {st' with prefixModes := fempty, modePrefixes := fempty}
    match findPrefixMatch resolved.data with
    | none => st''
    | some mp =>
      if mp.1.length ≠ mp.2.length then st''
      else
        (mp.1.zip mp.2).foldl
          (fun s q =>
            {s with modePrefixes := fput s.modePrefixes q.1 q.2,
                    prefixModes := fput s.prefixModes q.2 q.1})
          st''
  else st'

/-- callback005 processes all params besides the first (nick) and last
(human-readable trailer). -/
def callback005 (st : GoState) (params : List String) : GoState :=
  ((params.drop 1).dropLast).foldl apply005Token st

/-- clear resets every table, then replays a bogus 004 and a bogus 005
made of one `-KEY` token per default key (the Go map-iteration order is
unspecified; the source-literal order is fixed here — every order yields
the same state, as all these tokens only delete from an empty table). -/
def clear (st : GoState) : GoState :=
  let st := {st with isupport := fempty,
                     chanModes := [[], [], [], []],
                     chanTypes := [],
                     userModes := [],
                     prefixModes := fempty,
                     modePrefixes := fempty,
                     Channels := fempty,
                     Users := fempty}
  let st := callback004 st ["", "", "", "Oiorw"]
  callback005 st ((isupportDefaults.map (fun kv => "-" ++ kv.1)) ++ ["are supported by this server."])

/-- The zero value of the Go `State` struct, before `clear` runs. -/
def goZero : GoState :=
  ⟨"", [], [], [], fempty, fempty, fempty, fempty, fempty⟩

/-- The state right after `NewStatePlugin` constructs and clears it. -/
def initialState : GoState := clear goZero

/-- callback001 (RPL_WELCOME): record the nick, then re-clear. -/
def callback001 (st : GoState) (nick : String) : GoState :=
  clear {st with currentNick := nick}

/-- IsChannel: the first rune of the name is a known channel type. -/
def IsChannel (st : GoState) (name : String) : Bool :=
  match name.data with
  | [] => false
  | r :: _ => decide (r ∈ st.chanTypes)

/-- UserInChannel: normalized membership lookup. -/
def UserInChannel (st : GoState) (user channel : String) : Bool :=
  match st.Channels (Normalize st channel) with
  | none => false
  | some cs => decide (Normalize st user ∈ cs.Users)

/-- ensureUser: get-or-create of a user entity. -/
def ensureUser (st : GoState) (name : String) : GoState :=
  let n := Normalize st name
  match st.Users n with
  | some _ => st
  | none => {st with Users := fput st.Users n ⟨false, []⟩}

/-- ensureChannel: get-or-create of a channel entity. -/
def ensureChannel (st : GoState) (name : String) : GoState :=
  let n := Normalize st name
  match st.Channels n with
  | some _ => st
  | none => {st with Channels := fput st.Channels n ⟨[]⟩}

/-- ensureUserInChannel: ensure both entities and add both cross links. -/
def ensureUserInChannel (st : GoState) (user channel : String) : GoState :=
  let nu := Normalize st user
  let nc := Normalize st channel
  let st2 := ensureChannel (ensureUser st user) channel
  let st3 := {st2 with Channels := falter st2.Channels nc (fun cs => ⟨listInsert nu cs.Users⟩)}
  {st3 with Users := falter st3.Users nu (fun us => ⟨us.Away, listInsert nc us.Channels⟩)}

/-- The non-cascading half of ensureUserNotInChannel (source lines
135–149): ensure both entities, drop both cross links, and destroy the
user entity once its channel set is empty. -/
def removeCore (st : GoState) (user channel : String) : GoState :=
  let nu := Normalize st user
  let nc := Normalize st channel
  let st2 := ensureChannel (ensureUser st user) channel
  let st3 := {st2 with Channels := falter st2.Channels nc (fun cs => ⟨listRemove nu cs.Users⟩)}
  let st4 := {st3 with Users := falter st3.Users nu (fun us => ⟨us.Away, listRemove nc us.Channels⟩)}
  match st4.Users nu with
  | some us => if us.Channels.isEmpty then {st4 with Users := fdel st4.Users nu} else st4
  | none => st4

/-- ensureUserNotInChannel with explicit recursion fuel: the source
recurses through the remaining members when the bot itself leaves; fuel
makes that recursion structural (the wrapper below supplies more fuel
than the deepest chain the Go recursion can reach, so the zero-fuel
branch is never taken on the arguments it is run with). -/
def euniFuel : Nat → GoState → String → String → GoState
  | 0, st, _, _ => st
  | fuel+1, st, user, channel =>
    let nc := Normalize st channel
    let st1 := removeCore st user channel
    if user = st.currentNick then
      let members := ((st1.Channels nc).map ChannelState.Users).getD []
      let st2 := members.foldl (fun s uname => euniFuel fuel s uname channel) st1
      {st2 with Channels := fdel st2.Channels nc}
    else st1

/-- ensureUserNotInChannel: drop the membership link both ways; when the
departing user is the bot, remove every remaining member and destroy the
channel. -/
def ensureUserNotInChannel (st : GoState) (user channel : String) : GoState :=
  let nc := Normalize st channel
  euniFuel ((((st.Channels nc).map ChannelState.Users).getD []).length + 2) st user channel

/-- removeUser: take the user out of every channel, one at a time. -/
def removeUser (st : GoState) (name : String) : GoState :=
  let st1 := ensureUser st name
  let channels := ((st1.Users (Normalize st name)).map UserState.Channels).getD []
  channels.foldl (fun s cname => ensureUserNotInChannel s name cname) st1

/-- renameUser: re-key the user entity and fix every channel it is in
(in Go, adding the new name would panic through a nil map were one of
those channels absent; no modelled path reaches that, and the update is
embedded as acting on present entries). -/
def renameUser (st : GoState) (oldName newName : String) : GoState :=
  let normOld := Normalize st oldName
  let normNew := Normalize st newName
  let st1 := ensureUser st oldName
  let u := (st1.Users normOld).getD ⟨false, []⟩
  let st2 := {st1 with Users := fput (fdel st1.Users normOld) normNew u}
  u.Channels.foldl
    (fun s cname =>
      {s with Channels :=
        falter s.Channels cname (fun cs => ⟨listInsert normNew (listRemove normOld cs.Users)⟩)})
    st2

/-- joinCallback: the bot's own join is recorded; another user's join is
recorded only when the bot already shares the channel. -/
def joinCallback (st : GoState) (uname cname : String) : GoState :=
  if uname = st.currentNick then ensureUserInChannel st uname cname
  else if UserInChannel st st.currentNick cname then ensureUserInChannel st uname cname
  else st

/-- partCallback: leave the channel. -/
def partCallback (st : GoState) (uname cname : String) : GoState :=
  ensureUserNotInChannel st uname cname

/-- kickCallback: same removal, with the kicked user from the params. -/
def kickCallback (st : GoState) (uname cname : String) : GoState :=
  ensureUserNotInChannel st uname cname

/-- quitCallback: remove the user from every channel. -/
def quitCallback (st : GoState) (uname : String) : GoState :=
  removeUser st uname

/-- nickCallback: update the bot's identity on a self rename, then
re-key the user. -/
def nickCallback (st : GoState) (oldNick newNick : String) : GoState :=
  let st1 := if oldNick = st.currentNick then {st with currentNick := newNick} else st
  renameUser st1 oldNick newNick

/-- The membership-affecting protocol events. -/
inductive Ev where
  | join (uname cname : String)
  | part (uname cname : String)
  | kick (uname cname : String)
  | quit (uname : String)
  | nick (oldNick newNick : String)
deriving DecidableEq

/-- Dispatch one event to its handler. -/
def stepEv (st : GoState) : Ev → GoState
  | .join u c => joinCallback st u c
  | .part u c => partCallback st u c
  | .kick u c => kickCallback st u c
  | .quit u => quitCallback st u
  | .nick o n => nickCallback st o n

/-- Run a sequence of membership events. -/
def runEvs (st : GoState) (evs : List Ev) : GoState := evs.foldl stepEv st

/-- One mode-change effect per log statement of modeCallback. -/
inductive ModeEffect where
  | listAdd (param : String) (mode : Char)
  | listDel (param : String) (mode : Char)
  | keySet (mode : Char) (param : String)
  | keyUnset (mode : Char) (param : String)
  | limitSet (mode : Char) (param : String)
  | limitUnset (mode : Char)
  | settingSet (mode : Char)
  | settingUnset (mode : Char)
  | prefixSet (pr mode : Char) (user : String)
  | prefixUnset (pr mode : Char) (user : String)
  | userSet (mode : Char)
  | userUnset (mode : Char)
deriving DecidableEq

/-- The character loop of modeCallback: current polarity, remaining mode
string, remaining parameters. -/
def interpModes (st : GoState) (isChan : Bool) : Char → List Char → List String → List ModeEffect
  | _, [], _ => []
  | pol, v :: rest, ps =>
    if v = '+' ∨ v = '-' then interpModes st isChan v rest ps
    else if isChan then
      if v ∈ st.chanModes.getD 0 [] then
        match ps with
        | [] => interpModes st isChan pol rest []
        | p :: ps' =>
          (if pol = '+' then ModeEffect.listAdd p v else ModeEffect.listDel p v) ::
            interpModes st isChan pol rest ps'
      else if v ∈ st.chanModes.getD 1 [] then
        match ps with
        | [] => interpModes st isChan pol rest []
        | p :: ps' =>
          (if pol = '+' then ModeEffect.keySet v p else ModeEffect.keyUnset v p) ::
            interpModes st isChan pol rest ps'
      else if v ∈ st.chanModes.getD 2 [] then
        if pol = '+' then
          match ps with
          | [] => interpModes st isChan pol rest []
          | p :: ps' => ModeEffect.limitSet v p :: interpModes st isChan pol rest ps'
        else ModeEffect.limitUnset v :: interpModes st isChan pol rest ps
      else if v ∈ st.chanModes.getD 3 [] then
        (if pol = '+' then ModeEffect.settingSet v else ModeEffect.settingUnset v) ::
          interpModes st isChan pol rest ps
      else
        match st.modePrefixes v with
        | some mp =>
          match ps with
          | [] => interpModes st isChan pol rest []
          | p :: ps' =>
            (if pol = '+' then ModeEffect.prefixSet mp v p else ModeEffect.prefixUnset mp v p) ::
              interpModes st isChan pol rest ps'
        | none => interpModes st isChan pol rest ps
    else
      (if pol = '+' then ModeEffect.userSet v else ModeEffect.userUnset v) ::
        interpModes st isChan pol rest ps

/-- modeCallback: classify the target once, then walk the mode string. -/
def modeCallback (st : GoState) (target modestring : String)
    (msgParams : List String) : List ModeEffect :=
  interpModes st (IsChannel st target) '+' modestring.data msgParams

/-- Modelled from the spec: no variant under src/ contains the
`chantypes` case of callback005's special-token switch (the
`chanTypes` field and its reader `IsChannel` are in src, but the code
populating the set is not); per spec section 4.2, the channel-type set
is rebuilt from the characters of the value re-resolved through get.
This definition is `apply005Token` with exactly that case added. -/
def apply005TokenFull (st : GoState) (tok : String) : GoState :=
  let sp := splitEq tok.data
  let key : String := Normalize st ⟨sp.1⟩
  let value : String := ⟨sp.2.getD []⟩
  let st' :=
    if key.data.head? = some '-' then
      {st with isupport := fdel st.isupport ⟨key.data.drop 1⟩}
    else
      {st with isupport := fput st.isupport key value}
  let resolved := ISupport st' key
  if key = "chanmodes" then
    {st' with chanModes := (List.range 4).map (fun i => (splitComma resolved.data).getD i [])}
  else if key = "chantypes" then
    {st' with chanTypes := resolved.data}
  else if key = "prefix" then
    let st'' := {st' with prefixModes := fempty, modePrefixes := fempty}
    match findPrefixMatch resolved.data with
    | none => st''
    | some mp =>
      if mp.1.length ≠ mp.2.length then st''
      else
        (mp.1.zip mp.2).foldl
          (fun s q =>
            {s with modePrefixes := fput s.modePrefixes q.1 q.2,
                    prefixModes := fput s.prefixModes q.2 q.1})
          st''
  else st'

/-- Modelled from the spec: callback005 with the CHANTYPES case present. -/
def callback005Full (st : GoState) (params : List String) : GoState :=
  ((params.drop 1).dropLast).foldl apply005TokenFull st

/-- A PREFIX value the source's regular-expression parse rejects: no
match, or matched runs of unequal length. -/
def prefixParseFails (v : String) : Bool :=
  match findPrefixMatch v.data with
  | none => true
  | some pq => decide (pq.1.length ≠ pq.2.length)

/-- Whether modeCallback's cascade would consume a parameter for mode
character `v` on a channel target at polarity `pol` (mirrors the branch
structure of the source loop). -/
def paramNeeded (st : GoState) (pol v : Char) : Bool :=
  if v = '+' ∨ v = '-' then false
  else if v ∈ st.chanModes.getD 0 [] then true
  else if v ∈ st.chanModes.getD 1 [] then true
  else if v ∈ st.chanModes.getD 2 [] then decide (pol = '+')
  else if v ∈ st.chanModes.getD 3 [] then false
  else (st.modePrefixes v).isSome

/-- A state whose prefix bijection maps `o ↔ @` and `v ↔ +`, whose
channel types contain `#`, and whose list-mode class also contains `o`
(reachable via `CHANMODES=o` plus `PREFIX=(ov)@+`). -/
def stC7 : GoState :=
  {initialState with
    chanTypes := ['#'],
    chanModes := [['o'], [], [], []],
    modePrefixes := fun c => if c = 'o' then some '@' else if c = 'v' then some '+' else none,
    prefixModes := fun c => if c = '@' then some 'o' else if c = '+' then some 'v' else none}

/-- `stC7` with the four mode classes empty. -/
def stC7w : GoState := {stC7 with chanModes := [[], [], [], []]}

/-- The capability table is empty (true in the initial state; membership
handlers never write to it). -/
def isupportEmpty (st : GoState) : Prop := ∀ k, st.isupport k = none

/-- Every key stored in the membership maps is fixed under rfc1459
lowering (the normalization active whenever the table is empty). -/
def keysNorm (st : GoState) : Prop :=
  (∀ u us, st.Users u = some us → rfcFixed u ∧ ∀ c ∈ us.Channels, rfcFixed c) ∧
  (∀ c cs, st.Channels c = some cs → rfcFixed c ∧ ∀ u ∈ cs.Users, rfcFixed u)

/-- The bidirectional membership indices agree. -/
def crossRef (st : GoState) : Prop :=
  (∀ c cs u, st.Channels c = some cs → u ∈ cs.Users →
     ∃ us, st.Users u = some us ∧ c ∈ us.Channels) ∧
  (∀ u us c, st.Users u = some us → c ∈ us.Channels →
     ∃ cs, st.Channels c = some cs ∧ u ∈ cs.Users)

/-- Every user entity present in the store has a non-empty channel set. -/
def usersNonempty (st : GoState) : Prop :=
  ∀ u us, st.Users u = some us → us.Channels ≠ []

/-- The combined invariant used for the cross-reference analysis. -/
def WFx (st : GoState) : Prop := isupportEmpty st ∧ keysNorm st ∧ crossRef st

/-- Condition on a single event for the amended cross-reference claim:
NICK events must rename to the same normalized nick or to a nick that is
not currently a user key. -/
def evOkC1 (st : GoState) : Ev → Bool
  | .nick o n => decide (Normalize st n = Normalize st o) || (st.Users (Normalize st n)).isNone
  | _ => true

/-- The C1 side condition, threaded along a trace. -/
def traceOkC1 : GoState → List Ev → Bool
  | _, [] => true
  | st, e :: es => evOkC1 st e && traceOkC1 (stepEv st e) es

/-- Condition on a single event for the amended user-lifecycle claim:
QUIT and NICK must name a user the store currently knows. -/
def evOkC10 (st : GoState) : Ev → Bool
  | .quit u => (st.Users (Normalize st u)).isSome
  | .nick o _ => (st.Users (Normalize st o)).isSome
  | _ => true

/-- The C10 side condition, threaded along a trace. -/
def traceOkC10 : GoState → List Ev → Bool
  | _, [] => true
  | st, e :: es => evOkC10 st e && traceOkC10 (stepEv st e) es

/-! ## Theorems -/

@[simp] theorem fput_same {κ α : Type} [DecidableEq κ] (m : Fmap κ α) (k : κ) (v : α) :
    fput m k v k = some v := by simp [fput]

theorem fput_other {κ α : Type} [DecidableEq κ] (m : Fmap κ α) (k k' : κ) (v : α)
    (h : k' ≠ k) : fput m k v k' = m k' := by simp [fput, h]

@[simp] theorem fdel_same {κ α : Type} [DecidableEq κ] (m : Fmap κ α) (k : κ) :
    fdel m k k = none := by simp [fdel]

theorem fdel_other {κ α : Type} [DecidableEq κ] (m : Fmap κ α) (k k' : κ)
    (h : k' ≠ k) : fdel m k k' = m k' := by simp [fdel, h]

@[simp] theorem falter_same {κ α : Type} [DecidableEq κ] (m : Fmap κ α) (k : κ) (f : α → α) :
    falter m k f k = (m k).map f := by simp [falter]

theorem falter_other {κ α : Type} [DecidableEq κ] (m : Fmap κ α) (k k' : κ) (f : α → α)
    (h : k' ≠ k) : falter m k f k' = m k' := by simp [falter, h]

@[simp] theorem mem_listInsert {α : Type} [DecidableEq α] (x y : α) (l : List α) :
    y ∈ listInsert x l ↔ y = x ∨ y ∈ l := by
  unfold listInsert
  split
  · constructor
    · exact fun h => Or.inr h
    · rintro (rfl | h) <;> assumption
  · simp [or_comm]

@[simp] theorem mem_listRemove {α : Type} [DecidableEq α] (x y : α) (l : List α) :
    y ∈ listRemove x l ↔ y ∈ l ∧ y ≠ x := by
  simp [listRemove]

theorem listRemove_subset_of_subset {α : Type} [DecidableEq α] (x : α) {l m : List α}
    (h : ∀ y ∈ l, y ∈ x :: m) : ∀ y ∈ listRemove x l, y ∈ m := by
  intro y hy
  rcases (mem_listRemove x y l).1 hy with ⟨hyl, hyx⟩
  rcases List.mem_cons.1 (h y hyl) with h1 | h1
  · exact absurd h1 hyx
  · exact h1

theorem char_toNat_ofNat_of_lt {n : Nat} (h : n < 55296) : (Char.ofNat n).toNat = n := by
  have hv : n.isValidChar := Or.inl h
  simp [Char.ofNat, hv, Char.toNat, Char.ofNatAux, UInt32.toNat, BitVec.toNat_ofNatLt]

theorem rfc1459ToLower_idem (c : Char) :
    RFC1459ToLower (RFC1459ToLower c) = RFC1459ToLower c := by
  unfold RFC1459ToLower
  split
  · rename_i h
    have hlt : c.toNat + 32 < 55296 := by omega
    rw [char_toNat_ofNat_of_lt hlt]
    have hno : ¬ (65 ≤ c.toNat + 32 ∧ c.toNat + 32 ≤ 94) := by omega
    rw [if_neg hno]
  · rfl

theorem strMap_rfc_idem (s : String) :
    strMap RFC1459ToLower (strMap RFC1459ToLower s) = strMap RFC1459ToLower s := by
  unfold strMap
  congr 1
  rw [List.map_map]
  exact List.map_congr_left (fun c _ => rfc1459ToLower_idem c)

theorem rfcFixed_strMap (s : String) : rfcFixed (strMap RFC1459ToLower s) :=
  strMap_rfc_idem s

theorem Normalize_congr (s t : GoState) (name : String)
    (h : s.isupport "CASEMAPPING" = t.isupport "CASEMAPPING") :
    Normalize s name = Normalize t name := by
  unfold Normalize ToLower ISupport
  rw [h]

/-- When no ISUPPORT value is stored, Normalize is rfc1459 lowering. -/
theorem Normalize_of_empty (s : GoState) (name : String)
    (h : s.isupport "CASEMAPPING" = none) :
    Normalize s name = strMap RFC1459ToLower name := by
  unfold Normalize ToLower ISupport
  rw [h]
  rfl

@[simp] theorem ensureUser_isupport (st : GoState) (n : String) :
    (ensureUser st n).isupport = st.isupport := by
  simp only [ensureUser]
  cases st.Users (Normalize st n) <;> rfl

@[simp] theorem ensureUser_currentNick (st : GoState) (n : String) :
    (ensureUser st n).currentNick = st.currentNick := by
  simp only [ensureUser]
  cases st.Users (Normalize st n) <;> rfl

@[simp] theorem ensureUser_Channels (st : GoState) (n : String) :
    (ensureUser st n).Channels = st.Channels := by
  simp only [ensureUser]
  cases st.Users (Normalize st n) <;> rfl

@[simp] theorem ensureChannel_isupport (st : GoState) (n : String) :
    (ensureChannel st n).isupport = st.isupport := by
  simp only [ensureChannel]
  cases st.Channels (Normalize st n) <;> rfl

@[simp] theorem ensureChannel_currentNick (st : GoState) (n : String) :
    (ensureChannel st n).currentNick = st.currentNick := by
  simp only [ensureChannel]
  cases st.Channels (Normalize st n) <;> rfl

@[simp] theorem ensureChannel_Users (st : GoState) (n : String) :
    (ensureChannel st n).Users = st.Users := by
  simp only [ensureChannel]
  cases st.Channels (Normalize st n) <;> rfl

theorem ensureUser_Users (st : GoState) (name k : String) :
    (ensureUser st name).Users k =
      if k = Normalize st name then
        some ((st.Users (Normalize st name)).getD ⟨false, []⟩)
      else st.Users k := by
  simp only [ensureUser]
  cases h : st.Users (Normalize st name) with
  | none => simp [fput]
  | some us =>
    show st.Users k = _
    rcases eq_or_ne k (Normalize st name) with hk | hk
    · subst hk; rw [if_pos rfl, h]; rfl
    · rw [if_neg hk]

theorem ensureChannel_Channels (st : GoState) (name k : String) :
    (ensureChannel st name).Channels k =
      if k = Normalize st name then
        some ((st.Channels (Normalize st name)).getD ⟨[]⟩)
      else st.Channels k := by
  simp only [ensureChannel]
  cases h : st.Channels (Normalize st name) with
  | none => simp [fput]
  | some cs =>
    show st.Channels k = _
    rcases eq_or_ne k (Normalize st name) with hk | hk
    · subst hk; rw [if_pos rfl, h]; rfl
    · rw [if_neg hk]

theorem Normalize_ensureUser (st : GoState) (u s : String) :
    Normalize (ensureUser st u) s = Normalize st s :=
  Normalize_congr _ _ _ (by rw [ensureUser_isupport])

theorem ensureUserInChannel_Channels (st : GoState) (u c k : String) :
    (ensureUserInChannel st u c).Channels k =
      if k = Normalize st c then
        some ⟨listInsert (Normalize st u) ((st.Channels (Normalize st c)).getD ⟨[]⟩).Users⟩
      else st.Channels k := by
  have key : (falter (ensureChannel (ensureUser st u) c).Channels (Normalize st c)
      (fun cs => ⟨listInsert (Normalize st u) cs.Users⟩)) k =
      if k = Normalize st c then
        some ⟨listInsert (Normalize st u) ((st.Channels (Normalize st c)).getD ⟨[]⟩).Users⟩
      else st.Channels k := by
    rcases eq_or_ne k (Normalize st c) with hk | hk
    · subst hk
      rw [falter_same, ensureChannel_Channels, Normalize_ensureUser, if_pos rfl,
          ensureUser_Channels, if_pos rfl]
      rfl
    · rw [falter_other _ _ _ _ hk, ensureChannel_Channels, Normalize_ensureUser,
          if_neg hk, ensureUser_Channels, if_neg hk]
  exact key

theorem ensureUserInChannel_Users (st : GoState) (u c k : String) :
    (ensureUserInChannel st u c).Users k =
      if k = Normalize st u then
        some ⟨((st.Users (Normalize st u)).getD ⟨false, []⟩).Away,
              listInsert (Normalize st c) ((st.Users (Normalize st u)).getD ⟨false, []⟩).Channels⟩
      else st.Users k := by
  have key : (falter (ensureChannel (ensureUser st u) c).Users (Normalize st u)
      (fun us => ⟨us.Away, listInsert (Normalize st c) us.Channels⟩)) k =
      if k = Normalize st u then
        some ⟨((st.Users (Normalize st u)).getD ⟨false, []⟩).Away,
              listInsert (Normalize st c) ((st.Users (Normalize st u)).getD ⟨false, []⟩).Channels⟩
      else st.Users k := by
    rcases eq_or_ne k (Normalize st u) with hk | hk
    · subst hk
      rw [falter_same, ensureChannel_Users, ensureUser_Users, if_pos rfl, if_pos rfl]
      rfl
    · rw [falter_other _ _ _ _ hk, ensureChannel_Users, ensureUser_Users, if_neg hk, if_neg hk]
  exact key

@[simp] theorem ensureUserInChannel_isupport (st : GoState) (u c : String) :
    (ensureUserInChannel st u c).isupport = st.isupport := by
  show (ensureChannel (ensureUser st u) c).isupport = st.isupport
  rw [ensureChannel_isupport, ensureUser_isupport]

@[simp] theorem ensureUserInChannel_currentNick (st : GoState) (u c : String) :
    (ensureUserInChannel st u c).currentNick = st.currentNick := by
  show (ensureChannel (ensureUser st u) c).currentNick = st.currentNick
  rw [ensureChannel_currentNick, ensureUser_currentNick]

theorem removeCore_Channels (st : GoState) (u c k : String) :
    (removeCore st u c).Channels k =
      if k = Normalize st c then
        some ⟨listRemove (Normalize st u) ((st.Channels (Normalize st c)).getD ⟨[]⟩).Users⟩
      else st.Channels k := by
  have key : (falter (ensureChannel (ensureUser st u) c).Channels (Normalize st c)
      (fun cs => ⟨listRemove (Normalize st u) cs.Users⟩)) k =
      if k = Normalize st c then
        some ⟨listRemove (Normalize st u) ((st.Channels (Normalize st c)).getD ⟨[]⟩).Users⟩
      else st.Channels k := by
    rcases eq_or_ne k (Normalize st c) with hk | hk
    · subst hk
      rw [falter_same, ensureChannel_Channels, Normalize_ensureUser, if_pos rfl,
          ensureUser_Channels, if_pos rfl]
      rfl
    · rw [falter_other _ _ _ _ hk, ensureChannel_Channels, Normalize_ensureUser,
          if_neg hk, ensureUser_Channels, if_neg hk]
  simp only [removeCore]
  split
  · split
    · exact key
    · exact key
  · exact key

theorem removeCore_Users (st : GoState) (u c k : String) :
    (removeCore st u c).Users k =
      if k = Normalize st u then
        (if (listRemove (Normalize st c)
              ((st.Users (Normalize st u)).getD ⟨false, []⟩).Channels).isEmpty then none
         else some ⟨((st.Users (Normalize st u)).getD ⟨false, []⟩).Away,
                    listRemove (Normalize st c) ((st.Users (Normalize st u)).getD ⟨false, []⟩).Channels⟩)
      else st.Users k := by
  have hmid : ∀ k', (falter (ensureChannel (ensureUser st u) c).Users (Normalize st u)
      (fun us => ⟨us.Away, listRemove (Normalize st c) us.Channels⟩)) k' =
      if k' = Normalize st u then
        some ⟨((st.Users (Normalize st u)).getD ⟨false, []⟩).Away,
              listRemove (Normalize st c) ((st.Users (Normalize st u)).getD ⟨false, []⟩).Channels⟩
      else st.Users k' := by
    intro k'
    rcases eq_or_ne k' (Normalize st u) with hk | hk
    · subst hk
      rw [falter_same, ensureChannel_Users, ensureUser_Users, if_pos rfl, if_pos rfl]
      rfl
    · rw [falter_other _ _ _ _ hk, ensureChannel_Users, ensureUser_Users, if_neg hk, if_neg hk]
  simp only [removeCore]
  split
  · rename_i us h
    rw [hmid (Normalize st u), if_pos rfl] at h
    have hus : us = ⟨((st.Users (Normalize st u)).getD ⟨false, []⟩).Away,
        listRemove (Normalize st c) ((st.Users (Normalize st u)).getD ⟨false, []⟩).Channels⟩ :=
      Option.some_injective _ h.symm
    subst hus
    split
    · rename_i hemp
      show (fdel (falter (ensureChannel (ensureUser st u) c).Users (Normalize st u)
        (fun us => ⟨us.Away, listRemove (Normalize st c) us.Channels⟩)) (Normalize st u)) k = _
      rcases eq_or_ne k (Normalize st u) with hk | hk
      · subst hk
        rw [fdel_same, if_pos rfl]
      · rw [fdel_other _ _ _ hk, hmid k, if_neg hk, if_neg hk]
    · rename_i hemp
      show (falter (ensureChannel (ensureUser st u) c).Users (Normalize st u)
        (fun us => ⟨us.Away, listRemove (Normalize st c) us.Channels⟩)) k = _
      exact hmid k
  · rename_i h
    rw [hmid (Normalize st u), if_pos rfl] at h
    exact absurd h (by simp)

@[simp] theorem removeCore_isupport (st : GoState) (u c : String) :
    (removeCore st u c).isupport = st.isupport := by
  simp only [removeCore]
  split
  · split
    · show (ensureChannel (ensureUser st u) c).isupport = st.isupport
      rw [ensureChannel_isupport, ensureUser_isupport]
    · show (ensureChannel (ensureUser st u) c).isupport = st.isupport
      rw [ensureChannel_isupport, ensureUser_isupport]
  · show (ensureChannel (ensureUser st u) c).isupport = st.isupport
    rw [ensureChannel_isupport, ensureUser_isupport]

@[simp] theorem removeCore_currentNick (st : GoState) (u c : String) :
    (removeCore st u c).currentNick = st.currentNick := by
  simp only [removeCore]
  split
  · split
    · show (ensureChannel (ensureUser st u) c).currentNick = st.currentNick
      rw [ensureChannel_currentNick, ensureUser_currentNick]
    · show (ensureChannel (ensureUser st u) c).currentNick = st.currentNick
      rw [ensureChannel_currentNick, ensureUser_currentNick]
  · show (ensureChannel (ensureUser st u) c).currentNick = st.currentNick
    rw [ensureChannel_currentNick, ensureUser_currentNick]

theorem not_mem_listRemove {α : Type} [DecidableEq α] (x : α) (l : List α) :
    x ∉ listRemove x l := by
  simp [listRemove]

theorem listRemove_of_not_mem {α : Type} [DecidableEq α] {x : α} {l : List α}
    (h : x ∉ l) : listRemove x l = l := by
  unfold listRemove
  apply List.filter_eq_self.mpr
  intro y hy
  simp only [ne_eq, decide_eq_true_eq]
  rintro rfl
  exact h hy

theorem listInsert_of_mem {α : Type} [DecidableEq α] {x : α} {l : List α}
    (h : x ∈ l) : listInsert x l = l := by
  unfold listInsert
  rw [if_pos h]

theorem listInsert_ne_nil {α : Type} [DecidableEq α] (x : α) (l : List α) :
    listInsert x l ≠ [] := by
  unfold listInsert
  split
  · rename_i h
    intro hl
    rw [hl] at h
    exact absurd h (List.not_mem_nil x)
  · exact List.cons_ne_nil x l

theorem insertRemove_idem (a b : String) (L : List String) :
    listInsert a (listRemove b (listInsert a (listRemove b L)))
      = listInsert a (listRemove b L) := by
  by_cases hab : a = b
  · subst hab
    have hnot : a ∉ listRemove a L := not_mem_listRemove a L
    have h1 : listInsert a (listRemove a L) = a :: listRemove a L := by
      unfold listInsert
      rw [if_neg hnot]
    rw [h1]
    have h2 : listRemove a (a :: listRemove a L) = listRemove a L := by
      show (a :: listRemove a L).filter (fun y => y ≠ a) = listRemove a L
      rw [List.filter_cons]
      simp only [ne_eq, not_true_eq_false, decide_eq_true_eq, if_false]
      show List.filter _ (List.filter _ L) = _
      rw [List.filter_filter]
      apply List.filter_congr
      intro y hy
      simp [Bool.and_self]
    rw [h2, h1]
  · have hb : b ∉ listInsert a (listRemove b L) := by
      rw [mem_listInsert]
      rintro (rfl | hmem)
      · exact hab rfl
      · exact not_mem_listRemove b L hmem
    rw [listRemove_of_not_mem hb]
    exact listInsert_of_mem (by rw [mem_listInsert]; exact Or.inl rfl)

theorem euni_nonself (n : Nat) (st : GoState) (u c : String) (h : u ≠ st.currentNick) :
    euniFuel (n + 1) st u c = removeCore st u c := by
  simp only [euniFuel]
  rw [if_neg h]

theorem euni_self (n : Nat) (st : GoState) (u c : String) (h : u = st.currentNick) :
    euniFuel (n + 1) st u c =
      (let st1 := removeCore st u c
       let members := ((st1.Channels (Normalize st c)).map ChannelState.Users).getD []
       let st2 := members.foldl (fun s un => euniFuel n s un c) st1
       {st2 with Channels := fdel st2.Channels (Normalize st c)}) := by
  simp only [euniFuel]
  rw [if_pos h]

theorem euniFuel_isupport : ∀ (n : Nat) (st : GoState) (u c : String),
    (euniFuel n st u c).isupport = st.isupport := by
  intro n
  induction n with
  | zero => intro st u c; rfl
  | succ n ih =>
    intro st u c
    have hfold : ∀ (ms : List String) (s : GoState),
        (ms.foldl (fun s' un => euniFuel n s' un c) s).isupport = s.isupport := by
      intro ms
      induction ms with
      | nil => intro s; rfl
      | cons m ms ihm => intro s; rw [List.foldl_cons, ihm, ih]
    simp only [euniFuel]
    split
    · dsimp only
      rw [hfold, removeCore_isupport]
    · exact removeCore_isupport st u c

theorem euniFuel_currentNick : ∀ (n : Nat) (st : GoState) (u c : String),
    (euniFuel n st u c).currentNick = st.currentNick := by
  intro n
  induction n with
  | zero => intro st u c; rfl
  | succ n ih =>
    intro st u c
    have hfold : ∀ (ms : List String) (s : GoState),
        (ms.foldl (fun s' un => euniFuel n s' un c) s).currentNick = s.currentNick := by
      intro ms
      induction ms with
      | nil => intro s; rfl
      | cons m ms ihm => intro s; rw [List.foldl_cons, ihm, ih]
    simp only [euniFuel]
    split
    · dsimp only
      rw [hfold, removeCore_currentNick]
    · exact removeCore_currentNick st u c

theorem ensureUserNotInChannel_nonself (st : GoState) (u c : String)
    (h : u ≠ st.currentNick) : ensureUserNotInChannel st u c = removeCore st u c :=
  euni_nonself _ st u c h

@[simp] theorem ensureUserNotInChannel_isupport (st : GoState) (u c : String) :
    (ensureUserNotInChannel st u c).isupport = st.isupport :=
  euniFuel_isupport _ st u c

@[simp] theorem ensureUserNotInChannel_currentNick (st : GoState) (u c : String) :
    (ensureUserNotInChannel st u c).currentNick = st.currentNick :=
  euniFuel_currentNick _ st u c

theorem renameFold_Users (g : ChannelState → ChannelState) :
    ∀ (l : List String) (s : GoState),
      (l.foldl (fun s' cname => {s' with Channels := falter s'.Channels cname g}) s).Users
        = s.Users := by
  intro l
  induction l with
  | nil => intro s; rfl
  | cons a l ih => intro s; rw [List.foldl_cons, ih]

theorem renameFold_isupport (g : ChannelState → ChannelState) :
    ∀ (l : List String) (s : GoState),
      (l.foldl (fun s' cname => {s' with Channels := falter s'.Channels cname g}) s).isupport
        = s.isupport := by
  intro l
  induction l with
  | nil => intro s; rfl
  | cons a l ih => intro s; rw [List.foldl_cons, ih]

theorem renameFold_currentNick (g : ChannelState → ChannelState) :
    ∀ (l : List String) (s : GoState),
      (l.foldl (fun s' cname => {s' with Channels := falter s'.Channels cname g}) s).currentNick
        = s.currentNick := by
  intro l
  induction l with
  | nil => intro s; rfl
  | cons a l ih => intro s; rw [List.foldl_cons, ih]

theorem renameFold_Channels (g : ChannelState → ChannelState)
    (hg : ∀ cs, g (g cs) = g cs) :
    ∀ (l : List String) (s : GoState) (k : String),
      (l.foldl (fun s' cname => {s' with Channels := falter s'.Channels cname g}) s).Channels k
        = if k ∈ l then (s.Channels k).map g else s.Channels k := by
  have hmap : ∀ (x : Option ChannelState), (x.map g).map g = x.map g := by
    intro x
    cases x with
    | none => rfl
    | some cs => show some (g (g cs)) = some (g cs); rw [hg]
  intro l
  induction l with
  | nil => intro s k; simp
  | cons a l ih =>
    intro s k
    rw [List.foldl_cons, ih]
    rcases eq_or_ne k a with hk | hk
    · subst hk
      show (if k ∈ l then ((falter s.Channels k g) k).map g else (falter s.Channels k g) k) = _
      rw [falter_same]
      have hmem : k ∈ k :: l := List.mem_cons_self k l
      rw [if_pos hmem]
      split
      · rw [hmap]
      · rfl
    · show (if k ∈ l then ((falter s.Channels a g) k).map g else (falter s.Channels a g) k) = _
      rw [falter_other _ _ _ _ hk]
      have : (k ∈ a :: l) ↔ (k ∈ l) := by
        rw [List.mem_cons]
        exact or_iff_right hk
      rcases Decidable.em (k ∈ l) with hl | hl
      · rw [if_pos hl, if_pos (this.mpr hl)]
      · rw [if_neg hl, if_neg (fun hm => hl (this.mp hm))]

theorem renameUser_Users (st : GoState) (o n k : String) :
    (renameUser st o n).Users k =
      if k = Normalize st n then some ((st.Users (Normalize st o)).getD ⟨false, []⟩)
      else if k = Normalize st o then none
      else st.Users k := by
  simp only [renameUser]
  rw [renameFold_Users]
  have hent : (ensureUser st o).Users (Normalize st o)
      = some ((st.Users (Normalize st o)).getD ⟨false, []⟩) := by
    rw [ensureUser_Users, if_pos rfl]
  show (fput (fdel (ensureUser st o).Users (Normalize st o)) (Normalize st n)
      (((ensureUser st o).Users (Normalize st o)).getD ⟨false, []⟩)) k = _
  rcases eq_or_ne k (Normalize st n) with hk1 | hk1
  · subst hk1
    rw [fput_same, if_pos rfl, hent]
    rfl
  · rw [fput_other _ _ _ _ hk1, if_neg hk1]
    rcases eq_or_ne k (Normalize st o) with hk2 | hk2
    · subst hk2
      rw [fdel_same, if_pos rfl]
    · rw [fdel_other _ _ _ hk2, if_neg hk2, ensureUser_Users, if_neg hk2]

theorem renameUser_Channels (st : GoState) (o n k : String) :
    (renameUser st o n).Channels k =
      if k ∈ ((st.Users (Normalize st o)).getD ⟨false, []⟩).Channels then
        (st.Channels k).map
          (fun cs => ⟨listInsert (Normalize st n) (listRemove (Normalize st o) cs.Users)⟩)
      else st.Channels k := by
  simp only [renameUser]
  rw [renameFold_Channels _ (fun cs => by
    show (⟨listInsert (Normalize st n) (listRemove (Normalize st o)
      (listInsert (Normalize st n) (listRemove (Normalize st o) cs.Users)))⟩ : ChannelState) = _
    rw [insertRemove_idem])]
  have hent : (ensureUser st o).Users (Normalize st o)
      = some ((st.Users (Normalize st o)).getD ⟨false, []⟩) := by
    rw [ensureUser_Users, if_pos rfl]
  rw [hent]
  show (if k ∈ ((st.Users (Normalize st o)).getD ⟨false, []⟩).Channels
      then ((ensureUser st o).Channels k).map _ else (ensureUser st o).Channels k) = _
  rw [ensureUser_Channels]

@[simp] theorem renameUser_isupport (st : GoState) (o n : String) :
    (renameUser st o n).isupport = st.isupport := by
  simp only [renameUser]
  rw [renameFold_isupport]
  show (ensureUser st o).isupport = st.isupport
  rw [ensureUser_isupport]

@[simp] theorem renameUser_currentNick (st : GoState) (o n : String) :
    (renameUser st o n).currentNick = st.currentNick := by
  simp only [renameUser]
  rw [renameFold_currentNick]
  show (ensureUser st o).currentNick = st.currentNick
  rw [ensureUser_currentNick]

theorem Normalize_fixed {st : GoState} {x : String}
    (he : isupportEmpty st) (hx : rfcFixed x) : Normalize st x = x := by
  rw [Normalize_of_empty st x (he "CASEMAPPING")]
  exact hx

theorem Normalize_rfcFixed {st : GoState} (he : isupportEmpty st) (x : String) :
    rfcFixed (Normalize st x) := by
  rw [Normalize_of_empty st x (he "CASEMAPPING")]
  exact rfcFixed_strMap x

theorem removeCore_keysNorm (st : GoState) (u c : String)
    (he : isupportEmpty st) (hk : keysNorm st) : keysNorm (removeCore st u c) := by
  constructor
  · intro k us h1
    rw [removeCore_Users] at h1
    rcases eq_or_ne k (Normalize st u) with hky | hky
    · subst hky
      rw [if_pos rfl] at h1
      split at h1
      · exact absurd h1 (by simp)
      · have hus := Option.some_injective _ h1.symm
        subst hus
        refine ⟨Normalize_rfcFixed he u, ?_⟩
        intro c' hc'
        rcases (mem_listRemove _ _ _).1 hc' with ⟨hc1, _⟩
        cases horig : st.Users (Normalize st u) with
        | none => rw [horig] at hc1; exact absurd hc1 (List.not_mem_nil c')
        | some us0 =>
          rw [horig] at hc1
          exact (hk.1 _ us0 horig).2 c' hc1
    · rw [if_neg hky] at h1
      exact hk.1 k us h1
  · intro k cs h1
    rw [removeCore_Channels] at h1
    rcases eq_or_ne k (Normalize st c) with hky | hky
    · subst hky
      rw [if_pos rfl] at h1
      have hcs := Option.some_injective _ h1.symm
      subst hcs
      refine ⟨Normalize_rfcFixed he c, ?_⟩
      intro u' hu'
      rcases (mem_listRemove _ _ _).1 hu' with ⟨hu1, _⟩
      cases horig : st.Channels (Normalize st c) with
      | none => rw [horig] at hu1; exact absurd hu1 (List.not_mem_nil u')
      | some cs0 =>
        rw [horig] at hu1
        exact (hk.2 _ cs0 horig).2 u' hu1
    · rw [if_neg hky] at h1
      exact hk.2 k cs h1

theorem removeCore_crossRef (st : GoState) (u c : String)
    (hx : crossRef st) : crossRef (removeCore st u c) := by
  constructor
  · intro c' cs' u' h1 h2
    rw [removeCore_Channels] at h1
    rcases eq_or_ne c' (Normalize st c) with hkc | hkc
    · subst hkc
      rw [if_pos rfl] at h1
      have hcs := Option.some_injective _ h1.symm
      subst hcs
      rcases (mem_listRemove _ _ _).1 h2 with ⟨hu1, hune⟩
      cases horig : st.Channels (Normalize st c) with
      | none => rw [horig] at hu1; exact absurd hu1 (List.not_mem_nil u')
      | some cs0 =>
        rw [horig] at hu1
        rcases hx.1 _ cs0 u' horig hu1 with ⟨us, hus, hmem⟩
        refine ⟨us, ?_, hmem⟩
        rw [removeCore_Users, if_neg hune]
        exact hus
    · rw [if_neg hkc] at h1
      rcases hx.1 _ cs' u' h1 h2 with ⟨us, hus, hmem⟩
      rcases eq_or_ne u' (Normalize st u) with hku | hku
      · subst hku
        have hent : ((st.Users (Normalize st u)).getD ⟨false, []⟩) = us := by
          rw [hus]; rfl
        have hc'mem : c' ∈ listRemove (Normalize st c)
            ((st.Users (Normalize st u)).getD ⟨false, []⟩).Channels := by
          rw [hent]
          exact (mem_listRemove _ _ _).2 ⟨hmem, hkc⟩
        have hne : ¬ (listRemove (Normalize st c)
            ((st.Users (Normalize st u)).getD ⟨false, []⟩).Channels).isEmpty = true := by
          intro hempty
          rw [List.isEmpty_iff] at hempty
          rw [hempty] at hc'mem
          exact absurd hc'mem (List.not_mem_nil c')
        refine ⟨⟨((st.Users (Normalize st u)).getD ⟨false, []⟩).Away,
          listRemove (Normalize st c) ((st.Users (Normalize st u)).getD ⟨false, []⟩).Channels⟩,
          ?_, hc'mem⟩
        rw [removeCore_Users, if_pos rfl, if_neg hne]
      · refine ⟨us, ?_, hmem⟩
        rw [removeCore_Users, if_neg hku]
        exact hus
  · intro u' us' c' h1 h2
    rw [removeCore_Users] at h1
    rcases eq_or_ne u' (Normalize st u) with hku | hku
    · subst hku
      rw [if_pos rfl] at h1
      split at h1
      · exact absurd h1 (by simp)
      · have hus := Option.some_injective _ h1.symm
        subst hus
        rcases (mem_listRemove _ _ _).1 h2 with ⟨hc1, hcne⟩
        cases horig : st.Users (Normalize st u) with
        | none => rw [horig] at hc1; exact absurd hc1 (List.not_mem_nil c')
        | some us0 =>
          rw [horig] at hc1
          rcases hx.2 _ us0 c' horig hc1 with ⟨cs, hcs, hmem⟩
          refine ⟨cs, ?_, hmem⟩
          rw [removeCore_Channels, if_neg hcne]
          exact hcs
    · rw [if_neg hku] at h1
      rcases hx.2 _ us' c' h1 h2 with ⟨cs, hcs, hmem⟩
      rcases eq_or_ne c' (Normalize st c) with hkc | hkc
      · subst hkc
        have hent : ((st.Channels (Normalize st c)).getD ⟨[]⟩) = cs := by
          rw [hcs]; rfl
        refine ⟨⟨listRemove (Normalize st u)
          ((st.Channels (Normalize st c)).getD ⟨[]⟩).Users⟩, ?_, ?_⟩
        · rw [removeCore_Channels, if_pos rfl]
        · rw [hent]
          exact (mem_listRemove _ _ _).2 ⟨hmem, hku⟩
      · refine ⟨cs, ?_, hmem⟩
        rw [removeCore_Channels, if_neg hkc]
        exact hcs

theorem removeCore_usersNonempty (st : GoState) (u c : String)
    (h : usersNonempty st) : usersNonempty (removeCore st u c) := by
  intro k us h1
  rw [removeCore_Users] at h1
  rcases eq_or_ne k (Normalize st u) with hky | hky
  · subst hky
    rw [if_pos rfl] at h1
    split at h1
    · exact absurd h1 (by simp)
    · rename_i hne
      have hus := Option.some_injective _ h1.symm
      subst hus
      intro hnil
      apply hne
      rw [List.isEmpty_iff]
      exact hnil
  · rw [if_neg hky] at h1
    exact h k us h1

theorem removeCore_WFx (st : GoState) (u c : String) (h : WFx st) :
    WFx (removeCore st u c) := by
  obtain ⟨he, hk, hx⟩ := h
  refine ⟨?_, removeCore_keysNorm st u c he hk, removeCore_crossRef st u c hx⟩
  intro k
  rw [removeCore_isupport]
  exact he k

theorem euc_keysNorm (st : GoState) (u c : String)
    (he : isupportEmpty st) (hk : keysNorm st) : keysNorm (ensureUserInChannel st u c) := by
  constructor
  · intro k us h1
    rw [ensureUserInChannel_Users] at h1
    rcases eq_or_ne k (Normalize st u) with hky | hky
    · subst hky
      rw [if_pos rfl] at h1
      have hus := Option.some_injective _ h1.symm
      subst hus
      refine ⟨Normalize_rfcFixed he u, ?_⟩
      intro c' hc'
      rcases (mem_listInsert _ _ _).1 hc' with hc1 | hc1
      · subst hc1; exact Normalize_rfcFixed he c
      · cases horig : st.Users (Normalize st u) with
        | none => rw [horig] at hc1; exact absurd hc1 (List.not_mem_nil c')
        | some us0 =>
          rw [horig] at hc1
          exact (hk.1 _ us0 horig).2 c' hc1
    · rw [if_neg hky] at h1
      exact hk.1 k us h1
  · intro k cs h1
    rw [ensureUserInChannel_Channels] at h1
    rcases eq_or_ne k (Normalize st c) with hky | hky
    · subst hky
      rw [if_pos rfl] at h1
      have hcs := Option.some_injective _ h1.symm
      subst hcs
      refine ⟨Normalize_rfcFixed he c, ?_⟩
      intro u' hu'
      rcases (mem_listInsert _ _ _).1 hu' with hu1 | hu1
      · subst hu1; exact Normalize_rfcFixed he u
      · cases horig : st.Channels (Normalize st c) with
        | none => rw [horig] at hu1; exact absurd hu1 (List.not_mem_nil u')
        | some cs0 =>
          rw [horig] at hu1
          exact (hk.2 _ cs0 horig).2 u' hu1
    · rw [if_neg hky] at h1
      exact hk.2 k cs h1

theorem euc_crossRef (st : GoState) (u c : String)
    (hx : crossRef st) : crossRef (ensureUserInChannel st u c) := by
  have husers_nu : (ensureUserInChannel st u c).Users (Normalize st u) =
      some ⟨((st.Users (Normalize st u)).getD ⟨false, []⟩).Away,
        listInsert (Normalize st c) ((st.Users (Normalize st u)).getD ⟨false, []⟩).Channels⟩ := by
    rw [ensureUserInChannel_Users, if_pos rfl]
  have hchan_nc : (ensureUserInChannel st u c).Channels (Normalize st c) =
      some ⟨listInsert (Normalize st u) ((st.Channels (Normalize st c)).getD ⟨[]⟩).Users⟩ := by
    rw [ensureUserInChannel_Channels, if_pos rfl]
  constructor
  · intro c' cs' u' h1 h2
    rw [ensureUserInChannel_Channels] at h1
    rcases eq_or_ne c' (Normalize st c) with hkc | hkc
    · subst hkc
      rw [if_pos rfl] at h1
      have hcs := Option.some_injective _ h1.symm
      subst hcs
      rcases (mem_listInsert _ _ _).1 h2 with hu1 | hu1
      · subst hu1
        exact ⟨_, husers_nu, (mem_listInsert _ _ _).2 (Or.inl rfl)⟩
      · cases horig : st.Channels (Normalize st c) with
        | none => rw [horig] at hu1; exact absurd hu1 (List.not_mem_nil u')
        | some cs0 =>
          rw [horig] at hu1
          rcases hx.1 _ cs0 u' horig hu1 with ⟨us, hus, hmem⟩
          rcases eq_or_ne u' (Normalize st u) with hku | hku
          · subst hku
            refine ⟨_, husers_nu, ?_⟩
            exact (mem_listInsert _ _ _).2 (Or.inl rfl)
          · refine ⟨us, ?_, hmem⟩
            rw [ensureUserInChannel_Users, if_neg hku]
            exact hus
    · rw [if_neg hkc] at h1
      rcases hx.1 _ cs' u' h1 h2 with ⟨us, hus, hmem⟩
      rcases eq_or_ne u' (Normalize st u) with hku | hku
      · subst hku
        have hent : ((st.Users (Normalize st u)).getD ⟨false, []⟩) = us := by
          rw [hus]; rfl
        refine ⟨_, husers_nu, ?_⟩
        rw [hent]
        exact (mem_listInsert _ _ _).2 (Or.inr hmem)
      · refine ⟨us, ?_, hmem⟩
        rw [ensureUserInChannel_Users, if_neg hku]
        exact hus
  · intro u' us' c' h1 h2
    rw [ensureUserInChannel_Users] at h1
    rcases eq_or_ne u' (Normalize st u) with hku | hku
    · subst hku
      rw [if_pos rfl] at h1
      have hus := Option.some_injective _ h1.symm
      subst hus
      rcases (mem_listInsert _ _ _).1 h2 with hc1 | hc1
      · subst hc1
        exact ⟨_, hchan_nc, (mem_listInsert _ _ _).2 (Or.inl rfl)⟩
      · cases horig : st.Users (Normalize st u) with
        | none => rw [horig] at hc1; exact absurd hc1 (List.not_mem_nil c')
        | some us0 =>
          rw [horig] at hc1
          rcases hx.2 _ us0 c' horig hc1 with ⟨cs, hcs, hmem⟩
          rcases eq_or_ne c' (Normalize st c) with hkc | hkc
          · subst hkc
            refine ⟨_, hchan_nc, ?_⟩
            exact (mem_listInsert _ _ _).2 (Or.inl rfl)
          · refine ⟨cs, ?_, hmem⟩
            rw [ensureUserInChannel_Channels, if_neg hkc]
            exact hcs
    · rw [if_neg hku] at h1
      rcases hx.2 _ us' c' h1 h2 with ⟨cs, hcs, hmem⟩
      rcases eq_or_ne c' (Normalize st c) with hkc | hkc
      · subst hkc
        have hent : ((st.Channels (Normalize st c)).getD ⟨[]⟩) = cs := by
          rw [hcs]; rfl
        refine ⟨_, hchan_nc, ?_⟩
        rw [hent]
        exact (mem_listInsert _ _ _).2 (Or.inr hmem)
      · refine ⟨cs, ?_, hmem⟩
        rw [ensureUserInChannel_Channels, if_neg hkc]
        exact hcs

theorem euc_usersNonempty (st : GoState) (u c : String)
    (h : usersNonempty st) : usersNonempty (ensureUserInChannel st u c) := by
  intro k us h1
  rw [ensureUserInChannel_Users] at h1
  rcases eq_or_ne k (Normalize st u) with hky | hky
  · subst hky
    rw [if_pos rfl] at h1
    have hus := Option.some_injective _ h1.symm
    subst hus
    exact listInsert_ne_nil _ _
  · rw [if_neg hky] at h1
    exact h k us h1

theorem euc_WFx (st : GoState) (u c : String) (h : WFx st) :
    WFx (ensureUserInChannel st u c) := by
  obtain ⟨he, hk, hx⟩ := h
  refine ⟨?_, euc_keysNorm st u c he hk, euc_crossRef st u c hx⟩
  intro k
  rw [ensureUserInChannel_isupport]
  exact he k

theorem ensureUser_of_some (st : GoState) (n : String) (us : UserState)
    (h : st.Users (Normalize st n) = some us) : ensureUser st n = st := by
  simp only [ensureUser]
  rw [h]

theorem ensureUser_keysNorm (st : GoState) (n : String)
    (he : isupportEmpty st) (hk : keysNorm st) : keysNorm (ensureUser st n) := by
  constructor
  · intro k us h1
    rw [ensureUser_Users] at h1
    rcases eq_or_ne k (Normalize st n) with hky | hky
    · subst hky
      rw [if_pos rfl] at h1
      have hus := Option.some_injective _ h1.symm
      subst hus
      refine ⟨Normalize_rfcFixed he n, ?_⟩
      intro c' hc'
      cases horig : st.Users (Normalize st n) with
      | none => rw [horig] at hc'; exact absurd hc' (List.not_mem_nil c')
      | some us0 =>
        rw [horig] at hc'
        exact (hk.1 _ us0 horig).2 c' hc'
    · rw [if_neg hky] at h1
      exact hk.1 k us h1
  · intro k cs h1
    rw [ensureUser_Channels] at h1
    exact hk.2 k cs h1

theorem ensureUser_crossRef (st : GoState) (n : String)
    (hx : crossRef st) : crossRef (ensureUser st n) := by
  constructor
  · intro c' cs' u' h1 h2
    rw [ensureUser_Channels] at h1
    rcases hx.1 _ cs' u' h1 h2 with ⟨us, hus, hmem⟩
    refine ⟨us, ?_, hmem⟩
    rw [ensureUser_Users]
    rcases eq_or_ne u' (Normalize st n) with hku | hku
    · subst hku
      rw [if_pos rfl, hus]
      rfl
    · rw [if_neg hku]
      exact hus
  · intro u' us' c' h1 h2
    rw [ensureUser_Users] at h1
    rcases eq_or_ne u' (Normalize st n) with hku | hku
    · subst hku
      rw [if_pos rfl] at h1
      have hus := Option.some_injective _ h1.symm
      subst hus
      cases horig : st.Users (Normalize st n) with
      | none => rw [horig] at h2; exact absurd h2 (List.not_mem_nil c')
      | some us0 =>
        rw [horig] at h2
        rcases hx.2 _ us0 c' horig h2 with ⟨cs, hcs, hmem⟩
        refine ⟨cs, ?_, hmem⟩
        rw [ensureUser_Channels]
        exact hcs
    · rw [if_neg hku] at h1
      rcases hx.2 _ us' c' h1 h2 with ⟨cs, hcs, hmem⟩
      refine ⟨cs, ?_, hmem⟩
      rw [ensureUser_Channels]
      exact hcs

theorem ensureUser_WFx (st : GoState) (n : String) (h : WFx st) :
    WFx (ensureUser st n) := by
  obtain ⟨he, hk, hx⟩ := h
  refine ⟨?_, ensureUser_keysNorm st n he hk, ensureUser_crossRef st n hx⟩
  intro k
  rw [ensureUser_isupport]
  exact he k

theorem foldl_preserve {σ α : Type} (P : σ → Prop) (f : σ → α → σ)
    (hf : ∀ s a, P s → P (f s a)) :
    ∀ (l : List α) (s : σ), P s → P (l.foldl f s) := by
  intro l
  induction l with
  | nil => intro s h; exact h
  | cons a l ih =>
    intro s h
    rw [List.foldl_cons]
    exact ih _ (hf s a h)

theorem fold_nonself_eq (c0 : String) (n : Nat) :
    ∀ (ms : List String) (s : GoState), (∀ m ∈ ms, m ≠ s.currentNick) →
      ms.foldl (fun s' un => euniFuel (n + 1) s' un c0) s
        = ms.foldl (fun s' un => removeCore s' un c0) s := by
  intro ms
  induction ms with
  | nil => intro s _; rfl
  | cons m ms ih =>
    intro s h
    rw [List.foldl_cons, List.foldl_cons,
        euni_nonself n s m c0 (h m (List.mem_cons_self m ms))]
    apply ih
    intro m' hm'
    rw [removeCore_currentNick]
    exact h m' (List.mem_cons_of_mem m hm')

theorem fold_removeCore_empty (c0 : String) :
    ∀ (ms : List String) (s : GoState),
      isupportEmpty s → (∀ m ∈ ms, rfcFixed m) →
      (∀ x, x ∈ ((s.Channels (strMap RFC1459ToLower c0)).getD ⟨[]⟩).Users → x ∈ ms) →
      ∀ x, x ∈ (((ms.foldl (fun s' un => removeCore s' un c0) s).Channels
        (strMap RFC1459ToLower c0)).getD ⟨[]⟩).Users → False := by
  intro ms
  induction ms with
  | nil =>
    intro s _ _ hsub x hx
    exact absurd (hsub x hx) (List.not_mem_nil x)
  | cons m ms ih =>
    intro s he hfix hsub x hx
    rw [List.foldl_cons] at hx
    have hnc : Normalize s c0 = strMap RFC1459ToLower c0 :=
      Normalize_of_empty s c0 (he "CASEMAPPING")
    have hnm : Normalize s m = m :=
      Normalize_fixed he (hfix m (List.mem_cons_self m ms))
    have hstep : (removeCore s m c0).Channels (strMap RFC1459ToLower c0) =
        some ⟨listRemove m ((s.Channels (strMap RFC1459ToLower c0)).getD ⟨[]⟩).Users⟩ := by
      rw [removeCore_Channels, hnc, if_pos rfl, hnm]
    refine ih (removeCore s m c0) ?_ ?_ ?_ x hx
    · intro k
      rw [removeCore_isupport]
      exact he k
    · intro m' hm'
      exact hfix m' (List.mem_cons_of_mem m hm')
    · intro y hy
      rw [hstep] at hy
      rcases (mem_listRemove _ _ _).1 hy with ⟨hy1, hy2⟩
      rcases List.mem_cons.1 (hsub y hy1) with h' | h'
      · exact absurd h' hy2
      · exact h'

theorem euniFuel_usersNonempty : ∀ (n : Nat) (st : GoState) (u c : String),
    usersNonempty st → usersNonempty (euniFuel n st u c) := by
  intro n
  induction n with
  | zero => intro st u c h; exact h
  | succ n ih =>
    intro st u c h
    have hfold : ∀ (ms : List String) (s : GoState),
        usersNonempty s → usersNonempty (ms.foldl (fun s' un => euniFuel n s' un c) s) :=
      fun ms => foldl_preserve usersNonempty _ (fun s m hs => ih s m c hs) ms
    simp only [euniFuel]
    split
    · intro k us h1
      exact hfold _ _ (removeCore_usersNonempty st u c h) k us h1
    · exact removeCore_usersNonempty st u c h

theorem ensureUserNotInChannel_usersNonempty (st : GoState) (u c : String)
    (h : usersNonempty st) : usersNonempty (ensureUserNotInChannel st u c) :=
  euniFuel_usersNonempty _ st u c h

theorem ensureUserNotInChannel_WFx (st : GoState) (u c : String) (h : WFx st) :
    WFx (ensureUserNotInChannel st u c) := by
  obtain ⟨he, hk, hx⟩ := h
  by_cases hself : u = st.currentNick
  · -- the bot leaves: full teardown
    have hnc : Normalize st c = strMap RFC1459ToLower c :=
      Normalize_of_empty st c (he "CASEMAPPING")
    have hnu : Normalize st u = strMap RFC1459ToLower u :=
      Normalize_of_empty st u (he "CASEMAPPING")
    have hw : ensureUserNotInChannel st u c =
        euniFuel ((((st.Channels (Normalize st c)).map ChannelState.Users).getD []).length + 2)
          st u c := rfl
    rw [hw, euni_self ((((st.Channels (Normalize st c)).map
      ChannelState.Users).getD []).length + 1) st u c hself]
    dsimp only
    have hst1W : WFx (removeCore st u c) := removeCore_WFx st u c ⟨he, hk, hx⟩
    have hmembers : (removeCore st u c).Channels (Normalize st c) =
        some ⟨listRemove (Normalize st u)
          ((st.Channels (Normalize st c)).getD ⟨[]⟩).Users⟩ := by
      rw [removeCore_Channels, if_pos rfl]
    rw [hmembers]
    dsimp only [Option.map_some', Option.getD_some]
    set L := listRemove (Normalize st u) ((st.Channels (Normalize st c)).getD ⟨[]⟩).Users with hL
    have hfix : ∀ m ∈ L, rfcFixed m := by
      intro m hm
      rcases (mem_listRemove _ _ _).1 hm with ⟨hm1, _⟩
      cases horig : st.Channels (Normalize st c) with
      | none => rw [horig] at hm1; exact absurd hm1 (List.not_mem_nil m)
      | some cs0 =>
        rw [horig] at hm1
        exact (hk.2 _ cs0 horig).2 m hm1
    have hnself : ∀ m ∈ L, m ≠ (removeCore st u c).currentNick := by
      intro m hm
      rw [removeCore_currentNick, ← hself]
      rcases (mem_listRemove _ _ _).1 hm with ⟨_, hmne⟩
      intro hmu
      apply hmne
      rw [hnu, ← hmu]
      exact (hfix m hm).symm
    rw [fold_nonself_eq c _ L (removeCore st u c) hnself]
    have hWfold : WFx (L.foldl (fun s' un => removeCore s' un c) (removeCore st u c)) :=
      foldl_preserve WFx _ (fun s m hs => removeCore_WFx s m c hs) L (removeCore st u c) hst1W
    have hempty : ∀ x, x ∈ (((L.foldl (fun s' un => removeCore s' un c)
        (removeCore st u c)).Channels (strMap RFC1459ToLower c)).getD ⟨[]⟩).Users → False := by
      apply fold_removeCore_empty c L (removeCore st u c)
      · intro k
        rw [removeCore_isupport]
        exact he k
      · exact hfix
      · intro x hxin
        rw [← hnc, hmembers] at hxin
        exact hxin
    obtain ⟨heF, hkF, hxF⟩ := hWfold
    set F := L.foldl (fun s' un => removeCore s' un c) (removeCore st u c) with hF
    refine ⟨?_, ⟨?_, ?_⟩, ⟨?_, ?_⟩⟩
    · intro k
      exact heF k
    · intro k us h1
      exact hkF.1 k us h1
    · intro k cs h1
      rcases eq_or_ne k (Normalize st c) with hkc | hkc
      · subst hkc
        rw [show ({F with Channels := fdel F.Channels (Normalize st c)} : GoState).Channels
          (Normalize st c) = none from fdel_same _ _] at h1
        exact absurd h1 (by simp)
      · rw [show ({F with Channels := fdel F.Channels (Normalize st c)} : GoState).Channels k
          = F.Channels k from fdel_other _ _ _ hkc] at h1
        exact hkF.2 k cs h1
    · intro c' cs' u' h1 h2
      rcases eq_or_ne c' (Normalize st c) with hkc | hkc
      · subst hkc
        rw [show ({F with Channels := fdel F.Channels (Normalize st c)} : GoState).Channels
          (Normalize st c) = none from fdel_same _ _] at h1
        exact absurd h1 (by simp)
      · rw [show ({F with Channels := fdel F.Channels (Normalize st c)} : GoState).Channels c'
          = F.Channels c' from fdel_other _ _ _ hkc] at h1
        exact hxF.1 c' cs' u' h1 h2
    · intro u' us' c' h1 h2
      rcases hxF.2 u' us' c' h1 h2 with ⟨cs, hcs, hmem⟩
      rcases eq_or_ne c' (Normalize st c) with hkc | hkc
      · subst hkc
        exfalso
        apply hempty u'
        rw [← hnc, hcs]
        exact hmem
      · refine ⟨cs, ?_, hmem⟩
        rw [show ({F with Channels := fdel F.Channels (Normalize st c)} : GoState).Channels c'
          = F.Channels c' from fdel_other _ _ _ hkc]
        exact hcs
  · rw [ensureUserNotInChannel_nonself st u c hself]
    exact removeCore_WFx st u c ⟨he, hk, hx⟩

theorem renameUser_keysNorm (st : GoState) (o n : String)
    (he : isupportEmpty st) (hk : keysNorm st) : keysNorm (renameUser st o n) := by
  constructor
  · intro k us h1
    rw [renameUser_Users] at h1
    rcases eq_or_ne k (Normalize st n) with hkn | hkn
    · subst hkn
      rw [if_pos rfl] at h1
      have hus := Option.some_injective _ h1.symm
      subst hus
      refine ⟨Normalize_rfcFixed he n, ?_⟩
      intro c' hc'
      cases horig : st.Users (Normalize st o) with
      | none => rw [horig] at hc'; exact absurd hc' (List.not_mem_nil c')
      | some us0 =>
        rw [horig] at hc'
        exact (hk.1 _ us0 horig).2 c' hc'
    · rw [if_neg hkn] at h1
      rcases eq_or_ne k (Normalize st o) with hko | hko
      · subst hko
        rw [if_pos rfl] at h1
        exact absurd h1 (by simp)
      · rw [if_neg hko] at h1
        exact hk.1 k us h1
  · intro k cs h1
    rw [renameUser_Channels] at h1
    by_cases hcm : k ∈ ((st.Users (Normalize st o)).getD ⟨false, []⟩).Channels
    · rw [if_pos hcm] at h1
      rcases Option.map_eq_some'.1 h1 with ⟨cs0, hcs0, hgc⟩
      subst hgc
      refine ⟨(hk.2 k cs0 hcs0).1, ?_⟩
      intro u' hu'
      rcases (mem_listInsert _ _ _).1 hu' with h' | h'
      · subst h'; exact Normalize_rfcFixed he n
      · rcases (mem_listRemove _ _ _).1 h' with ⟨hmem0, _⟩
        exact (hk.2 k cs0 hcs0).2 u' hmem0
    · rw [if_neg hcm] at h1
      exact hk.2 k cs h1

theorem renameUser_crossRef (st : GoState) (o n : String) (hx : crossRef st)
    (hfresh : Normalize st n = Normalize st o ∨ st.Users (Normalize st n) = none) :
    crossRef (renameUser st o n) := by
  have hD : ∀ u'' us'', st.Users u'' = some us'' → u'' ≠ Normalize st o →
      u'' ≠ Normalize st n := by
    intro u'' us'' hus hne heq
    rcases hfresh with hfe | hfn
    · exact hne (heq.trans hfe)
    · rw [heq, hfn] at hus
      exact absurd hus (by simp)
  constructor
  · intro c' cs' u' h1 h2
    rw [renameUser_Channels] at h1
    by_cases hcm : c' ∈ ((st.Users (Normalize st o)).getD ⟨false, []⟩).Channels
    · rw [if_pos hcm] at h1
      rcases Option.map_eq_some'.1 h1 with ⟨cs0, hcs0, hgc⟩
      subst hgc
      rcases (mem_listInsert _ _ _).1 h2 with h' | h'
      · subst h'
        refine ⟨_, ?_, hcm⟩
        rw [renameUser_Users, if_pos rfl]
      · rcases (mem_listRemove _ _ _).1 h' with ⟨hmem0, hneo⟩
        rcases hx.1 c' cs0 u' hcs0 hmem0 with ⟨us, hus, hmemc⟩
        have hnen := hD u' us hus hneo
        refine ⟨us, ?_, hmemc⟩
        rw [renameUser_Users, if_neg hnen, if_neg hneo]
        exact hus
    · rw [if_neg hcm] at h1
      rcases hx.1 c' cs' u' h1 h2 with ⟨us, hus, hmemc⟩
      have hneo : u' ≠ Normalize st o := by
        rintro rfl
        have hent : ((st.Users (Normalize st o)).getD ⟨false, []⟩) = us := by
          rw [hus]; rfl
        exact hcm (hent ▸ hmemc)
      have hnen := hD u' us hus hneo
      refine ⟨us, ?_, hmemc⟩
      rw [renameUser_Users, if_neg hnen, if_neg hneo]
      exact hus
  · intro u' us' c' h1 h2
    rw [renameUser_Users] at h1
    rcases eq_or_ne u' (Normalize st n) with hkn | hkn
    · subst hkn
      rw [if_pos rfl] at h1
      have hus := Option.some_injective _ h1.symm
      subst hus
      cases horig : st.Users (Normalize st o) with
      | none =>
        rw [horig] at h2
        exact absurd h2 (List.not_mem_nil c')
      | some us0 =>
        have h2' : c' ∈ us0.Channels := by
          rw [horig] at h2
          exact h2
        have hcm : c' ∈ ((st.Users (Normalize st o)).getD ⟨false, []⟩).Channels := by
          rw [horig]
          exact h2'
        rcases hx.2 _ us0 c' horig h2' with ⟨cs0, hcs0, _⟩
        refine ⟨⟨listInsert (Normalize st n) (listRemove (Normalize st o) cs0.Users)⟩, ?_, ?_⟩
        · rw [renameUser_Channels, if_pos hcm, hcs0]
          rfl
        · exact (mem_listInsert _ _ _).2 (Or.inl rfl)
    · rw [if_neg hkn] at h1
      rcases eq_or_ne u' (Normalize st o) with hko | hko
      · subst hko
        rw [if_pos rfl] at h1
        exact absurd h1 (by simp)
      · rw [if_neg hko] at h1
        rcases hx.2 u' us' c' h1 h2 with ⟨cs0, hcs0, hmem0⟩
        by_cases hcm : c' ∈ ((st.Users (Normalize st o)).getD ⟨false, []⟩).Channels
        · refine ⟨⟨listInsert (Normalize st n) (listRemove (Normalize st o) cs0.Users)⟩, ?_, ?_⟩
          · rw [renameUser_Channels, if_pos hcm, hcs0]
            rfl
          · exact (mem_listInsert _ _ _).2
              (Or.inr ((mem_listRemove _ _ _).2 ⟨hmem0, hko⟩))
        · refine ⟨cs0, ?_, hmem0⟩
          rw [renameUser_Channels, if_neg hcm]
          exact hcs0

theorem renameUser_usersNonempty (st : GoState) (o n : String)
    (h : usersNonempty st) (hknown : (st.Users (Normalize st o)).isSome = true) :
    usersNonempty (renameUser st o n) := by
  intro k us h1
  rw [renameUser_Users] at h1
  rcases eq_or_ne k (Normalize st n) with hkn | hkn
  · subst hkn
    rw [if_pos rfl] at h1
    have hus := Option.some_injective _ h1.symm
    subst hus
    cases horig : st.Users (Normalize st o) with
    | none => rw [horig] at hknown; exact absurd hknown (by simp)
    | some us0 => exact h _ us0 horig
  · rw [if_neg hkn] at h1
    rcases eq_or_ne k (Normalize st o) with hko | hko
    · subst hko
      rw [if_pos rfl] at h1
      exact absurd h1 (by simp)
    · rw [if_neg hko] at h1
      exact h k us h1

theorem renameUser_WFx (st : GoState) (o n : String) (h : WFx st)
    (hfresh : Normalize st n = Normalize st o ∨ st.Users (Normalize st n) = none) :
    WFx (renameUser st o n) := by
  obtain ⟨he, hk, hx⟩ := h
  refine ⟨?_, renameUser_keysNorm st o n he hk, renameUser_crossRef st o n hx hfresh⟩
  intro k
  rw [renameUser_isupport]
  exact he k

theorem zipFold_Users : ∀ (l : List (Char × Char)) (s : GoState),
    (l.foldl (fun s' q => {s' with modePrefixes := fput s'.modePrefixes q.1 q.2, prefixModes := fput s'.prefixModes q.2 q.1}) s).Users = s.Users := by
  intro l
  induction l with
  | nil => intro s; rfl
  | cons a l ih => intro s; rw [List.foldl_cons, ih]

theorem zipFold_Channels : ∀ (l : List (Char × Char)) (s : GoState),
    (l.foldl (fun s' q => {s' with modePrefixes := fput s'.modePrefixes q.1 q.2, prefixModes := fput s'.prefixModes q.2 q.1}) s).Channels = s.Channels := by
  intro l
  induction l with
  | nil => intro s; rfl
  | cons a l ih => intro s; rw [List.foldl_cons, ih]

theorem zipFold_currentNick : ∀ (l : List (Char × Char)) (s : GoState),
    (l.foldl (fun s' q => {s' with modePrefixes := fput s'.modePrefixes q.1 q.2, prefixModes := fput s'.prefixModes q.2 q.1}) s).currentNick = s.currentNick := by
  intro l
  induction l with
  | nil => intro s; rfl
  | cons a l ih => intro s; rw [List.foldl_cons, ih]

theorem apply005Token_Users (st : GoState) (tok : String) :
    (apply005Token st tok).Users = st.Users := by
  simp only [apply005Token]
  split
  · split <;> rfl
  · split
    · split
      · split <;> rfl
      · split
        · split <;> rfl
        · rw [zipFold_Users]
          split <;> rfl
    · split <;> rfl

theorem apply005Token_Channels (st : GoState) (tok : String) :
    (apply005Token st tok).Channels = st.Channels := by
  simp only [apply005Token]
  split
  · split <;> rfl
  · split
    · split
      · split <;> rfl
      · split
        · split <;> rfl
        · rw [zipFold_Channels]
          split <;> rfl
    · split <;> rfl

theorem apply005Token_currentNick (st : GoState) (tok : String) :
    (apply005Token st tok).currentNick = st.currentNick := by
  simp only [apply005Token]
  split
  · split <;> rfl
  · split
    · split
      · split <;> rfl
      · split
        · split <;> rfl
        · rw [zipFold_currentNick]
          split <;> rfl
    · split <;> rfl

theorem foldl_apply005Token_Users : ∀ (toks : List String) (s : GoState),
    (toks.foldl apply005Token s).Users = s.Users := by
  intro toks
  induction toks with
  | nil => intro s; rfl
  | cons t ts ih => intro s; rw [List.foldl_cons, ih, apply005Token_Users]

theorem foldl_apply005Token_Channels : ∀ (toks : List String) (s : GoState),
    (toks.foldl apply005Token s).Channels = s.Channels := by
  intro toks
  induction toks with
  | nil => intro s; rfl
  | cons t ts ih => intro s; rw [List.foldl_cons, ih, apply005Token_Channels]

theorem foldl_apply005Token_currentNick : ∀ (toks : List String) (s : GoState),
    (toks.foldl apply005Token s).currentNick = s.currentNick := by
  intro toks
  induction toks with
  | nil => intro s; rfl
  | cons t ts ih => intro s; rw [List.foldl_cons, ih, apply005Token_currentNick]

theorem apply005Token_keepEmpty (st : GoState) (tok : String)
    (he : isupportEmpty st) (hd : tok.data.head? = some '-') :
    isupportEmpty (apply005Token st tok) := by
  cases htd : tok.data with
  | nil => rw [htd] at hd; exact absurd hd (by simp)
  | cons c t =>
    have hc : c = '-' := by
      rw [htd] at hd
      exact Option.some_injective _ hd
    subst hc
    have hsp : splitEq tok.data = ('-' :: (splitEq t).1, (splitEq t).2) := by
      rw [htd]
      rfl
    have hdash : RFC1459ToLower '-' = '-' := by decide
    have hnorm : Normalize st ⟨(splitEq tok.data).1⟩ =
        ⟨'-' :: ((splitEq t).1.map RFC1459ToLower)⟩ := by
      rw [Normalize_of_empty st _ (he "CASEMAPPING"), hsp]
      unfold strMap
      show (⟨List.map RFC1459ToLower ('-' :: (splitEq t).1)⟩ : String) = _
      rw [List.map_cons, hdash]
    have hne1 : (⟨'-' :: ((splitEq t).1.map RFC1459ToLower)⟩ : String) ≠ "chanmodes" := by
      intro h
      have h2 := congrArg String.data h
      have h3 : (some '-' : Option Char) = some 'c' := congrArg List.head? h2
      exact absurd h3 (by decide)
    have hne2 : (⟨'-' :: ((splitEq t).1.map RFC1459ToLower)⟩ : String) ≠ "prefix" := by
      intro h
      have h2 := congrArg String.data h
      have h3 : (some '-' : Option Char) = some 'p' := congrArg List.head? h2
      exact absurd h3 (by decide)
    intro k
    simp only [apply005Token]
    rw [hnorm, if_neg hne1, if_neg hne2]
    rw [if_pos (show (⟨'-' :: ((splitEq t).1.map RFC1459ToLower)⟩ : String).data.head?
      = some '-' from rfl)]
    show fdel st.isupport _ k = none
    unfold fdel
    split
    · rfl
    · exact he k

theorem foldl_apply005Token_keepEmpty : ∀ (toks : List String) (s : GoState),
    isupportEmpty s → (∀ t ∈ toks, t.data.head? = some '-') →
    isupportEmpty (toks.foldl apply005Token s) := by
  intro toks
  induction toks with
  | nil => intro s he _; exact he
  | cons t ts ih =>
    intro s he hd
    rw [List.foldl_cons]
    exact ih _ (apply005Token_keepEmpty s t he (hd t (List.mem_cons_self t ts)))
      (fun t' ht' => hd t' (List.mem_cons_of_mem t ht'))

theorem clear_Users (st : GoState) (k : String) : (clear st).Users k = none := by
  unfold clear callback005
  dsimp only
  rw [foldl_apply005Token_Users]
  rfl

theorem clear_Channels (st : GoState) (k : String) : (clear st).Channels k = none := by
  unfold clear callback005
  dsimp only
  rw [foldl_apply005Token_Channels]
  rfl

theorem clear_isupportEmpty (st : GoState) : isupportEmpty (clear st) := by
  unfold clear callback005
  dsimp only
  apply foldl_apply005Token_keepEmpty
  · intro k
    rfl
  · decide

theorem clear_WFx (st : GoState) : WFx (clear st) := by
  refine ⟨clear_isupportEmpty st, ⟨?_, ?_⟩, ⟨?_, ?_⟩⟩
  · intro u us h
    rw [clear_Users] at h
    exact absurd h (by simp)
  · intro c cs h
    rw [clear_Channels] at h
    exact absurd h (by simp)
  · intro c cs u h
    rw [clear_Channels] at h
    exact absurd h (by simp)
  · intro u us c h
    rw [clear_Users] at h
    exact absurd h (by simp)

theorem clear_usersNonempty (st : GoState) : usersNonempty (clear st) := by
  intro u us h
  rw [clear_Users] at h
  exact absurd h (by simp)

theorem initialState_WFx : WFx initialState := clear_WFx goZero

theorem initialState_usersNonempty : usersNonempty initialState := clear_usersNonempty goZero

theorem stepEv_WFx (st : GoState) (ev : Ev) (h : WFx st)
    (hok : evOkC1 st ev = true) : WFx (stepEv st ev) := by
  cases ev with
  | join u c =>
    show WFx (joinCallback st u c)
    unfold joinCallback
    split
    · exact euc_WFx st u c h
    · split
      · exact euc_WFx st u c h
      · exact h
  | part u c => exact ensureUserNotInChannel_WFx st u c h
  | kick u c => exact ensureUserNotInChannel_WFx st u c h
  | quit u =>
    show WFx (removeUser st u)
    unfold removeUser
    dsimp only
    exact foldl_preserve WFx _ (fun s a hs => ensureUserNotInChannel_WFx s u a hs) _ _
      (ensureUser_WFx st u h)
  | nick o n =>
    have hfresh : Normalize st n = Normalize st o ∨ st.Users (Normalize st n) = none := by
      simp only [evOkC1, Bool.or_eq_true] at hok
      rcases hok with h1 | h1
      · exact Or.inl (of_decide_eq_true h1)
      · exact Or.inr (Option.isNone_iff_eq_none.1 h1)
    show WFx (nickCallback st o n)
    unfold nickCallback
    dsimp only
    split
    · exact renameUser_WFx {st with currentNick := n} o n h hfresh
    · exact renameUser_WFx st o n h hfresh

theorem runEvs_WFx : ∀ (evs : List Ev) (st : GoState),
    WFx st → traceOkC1 st evs = true → WFx (runEvs st evs) := by
  intro evs
  induction evs with
  | nil => intro st h _; exact h
  | cons e es ih =>
    intro st h hok
    simp only [traceOkC1, Bool.and_eq_true] at hok
    show WFx (runEvs (stepEv st e) es)
    exact ih _ (stepEv_WFx st e h hok.1) hok.2

theorem stepEv_usersNonempty (st : GoState) (ev : Ev) (h : usersNonempty st)
    (hok : evOkC10 st ev = true) : usersNonempty (stepEv st ev) := by
  cases ev with
  | join u c =>
    show usersNonempty (joinCallback st u c)
    unfold joinCallback
    split
    · exact euc_usersNonempty st u c h
    · split
      · exact euc_usersNonempty st u c h
      · exact h
  | part u c => exact ensureUserNotInChannel_usersNonempty st u c h
  | kick u c => exact ensureUserNotInChannel_usersNonempty st u c h
  | quit u =>
    have hknown : (st.Users (Normalize st u)).isSome = true := hok
    rcases Option.isSome_iff_exists.1 hknown with ⟨us, hus⟩
    show usersNonempty (removeUser st u)
    unfold removeUser
    dsimp only
    rw [ensureUser_of_some st u us hus]
    exact foldl_preserve usersNonempty _
      (fun s a hs => ensureUserNotInChannel_usersNonempty s u a hs) _ _ h
  | nick o n =>
    have hknown : (st.Users (Normalize st o)).isSome = true := hok
    show usersNonempty (nickCallback st o n)
    unfold nickCallback
    dsimp only
    split
    · exact renameUser_usersNonempty {st with currentNick := n} o n h hknown
    · exact renameUser_usersNonempty st o n h hknown

theorem runEvs_usersNonempty : ∀ (evs : List Ev) (st : GoState),
    usersNonempty st → traceOkC10 st evs = true → usersNonempty (runEvs st evs) := by
  intro evs
  induction evs with
  | nil => intro st h _; exact h
  | cons e es ih =>
    intro st h hok
    simp only [traceOkC10, Bool.and_eq_true] at hok
    show usersNonempty (runEvs (stepEv st e) es)
    exact ih _ (stepEv_usersNonempty st e h hok.1) hok.2

theorem not_mem_getD (L : List (List Char)) (x : Char)
    (h : ∀ l ∈ L, x ∉ l) (i : Nat) : x ∉ L.getD i [] := by
  rw [List.getD_eq_getElem?_getD]
  intro hmem
  cases hg : L[i]? with
  | none => rw [hg] at hmem; exact absurd hmem (List.not_mem_nil x)
  | some l2 =>
    rw [hg] at hmem
    exact h l2 (List.getElem?_mem hg) hmem

theorem removeCore_keepsChannel (st : GoState) (u c ch : String)
    (h : (st.Channels ch).isSome = true) :
    ((removeCore st u c).Channels ch).isSome = true := by
  rw [removeCore_Channels]
  split
  · rfl
  · exact h

theorem euc_keepsChannel (st : GoState) (u c ch : String)
    (h : (st.Channels ch).isSome = true) :
    ((ensureUserInChannel st u c).Channels ch).isSome = true := by
  rw [ensureUserInChannel_Channels]
  split
  · rfl
  · exact h

theorem renameUser_keepsChannel (st : GoState) (o n ch : String)
    (h : (st.Channels ch).isSome = true) :
    ((renameUser st o n).Channels ch).isSome = true := by
  rw [renameUser_Channels]
  split
  · rcases Option.isSome_iff_exists.1 h with ⟨cs, hcs⟩
    rw [hcs]
    rfl
  · exact h

/-- C1 (counterexample): the cross-reference invariant as claimed is
false: from the initial state, after the bot (empty initial nick) joins
`#a`, alice joins `#a`, and an unknown user bob renames to alice
(clobbering alice's entity), `alice` is in `Channels["#a"].Users` but
`"#a"` is not in `Users["alice"].Channels`. -/
theorem C1_cross_reference_cex :
    (runEvs initialState
      [Ev.join "" "#a", Ev.join "alice" "#a", Ev.nick "bob" "alice"]).Channels "#a"
        = some ⟨["alice", ""]⟩ ∧
    (runEvs initialState
      [Ev.join "" "#a", Ev.join "alice" "#a", Ev.nick "bob" "alice"]).Users "alice"
        = some ⟨false, []⟩ ∧
    ¬ crossRef (runEvs initialState
      [Ev.join "" "#a", Ev.join "alice" "#a", Ev.nick "bob" "alice"]) := by
  refine ⟨by decide, by decide, ?_⟩
  intro hcr
  rcases hcr.1 "#a" ⟨["alice", ""]⟩ "alice" (by decide) (by decide) with ⟨us, hus, hmem⟩
  rw [show (runEvs initialState
      [Ev.join "" "#a", Ev.join "alice" "#a", Ev.nick "bob" "alice"]).Users "alice"
        = some ⟨false, []⟩ from by decide] at hus
  have := Option.some_injective _ hus
  subst this
  exact absurd hmem (List.not_mem_nil _)

/-- C1 (amended): after any sequence of JOIN/PART/KICK/QUIT/NICK handler
invocations starting from the initial state in which every NICK either
keeps the normalized nickname unchanged or renames to a nickname that is
not currently a user key, the bidirectional membership indices agree:
`u ∈ Channels[c].Users` iff `c ∈ Users[u].Channels`. -/
theorem C1_cross_reference_amended (evs : List Ev)
    (h : traceOkC1 initialState evs = true) :
    crossRef (runEvs initialState evs) :=
  (runEvs_WFx evs initialState initialState_WFx h).2.2

/-- C1 witness: the amended theorem applied to a concrete trace. -/
theorem C1_cross_reference_witness :
    crossRef (runEvs initialState [Ev.join "" "#a", Ev.join "alice" "#a"]) :=
  C1_cross_reference_amended [Ev.join "" "#a", Ev.join "alice" "#a"] (by decide)

/-- C2: the `-KEY` reset tokens do not recompute the derived structures:
after the bootstrap (which feeds one `-KEY` token per default key through
the 005 handler) the prefix bijection and the channel-type set are empty,
not `('ov')@+` / `#&`; and applying `-CHANMODES` after a custom
`CHANMODES=a,b,c,d` leaves the classifier at the custom split instead of
clearing it (the switch in callback005 compares the still-dash-named key,
and ISupport misses the lowercased stored keys), contradicting the intent
stated by the comment in `clear`. -/
theorem C2_reset_bootstrap_bug :
    initialState.prefixModes '@' = none ∧
    initialState.modePrefixes 'o' = none ∧
    initialState.chanTypes = [] ∧
    (callback005 (callback005 initialState ["n", "CHANMODES=a,b,c,d", "t"])
      ["n", "-CHANMODES", "t"]).chanModes = [['a'], ['b'], ['c'], ['d']] ∧
    (callback005 (callback005 initialState ["n", "CHANMODES=a,b,c,d", "t"])
      ["n", "-CHANMODES", "t"]).isupport "chanmodes" = none := by
  decide

/-- C3: when the bot PARTs `#test` while alice and bob are also members,
afterward `#test` is gone from Channels, and alice and bob (whose only
channel it was) are gone from Users; and a non-self departure never
destroys a channel: ensureUserNotInChannel for a non-bot user, JOIN,
NICK, and QUIT of a non-bot user all keep every existing channel key. -/
theorem C3_self_part_teardown :
    ((partCallback (joinCallback (joinCallback (joinCallback (callback001 initialState "bot")
        "bot" "#test") "alice" "#test") "bob" "#test") "bot" "#test").Channels "#test" = none ∧
     (partCallback (joinCallback (joinCallback (joinCallback (callback001 initialState "bot")
        "bot" "#test") "alice" "#test") "bob" "#test") "bot" "#test").Users "alice" = none ∧
     (partCallback (joinCallback (joinCallback (joinCallback (callback001 initialState "bot")
        "bot" "#test") "alice" "#test") "bob" "#test") "bot" "#test").Users "bob" = none) ∧
    (∀ st u c ch, u ≠ st.currentNick → (st.Channels ch).isSome = true →
        ((ensureUserNotInChannel st u c).Channels ch).isSome = true) ∧
    (∀ st u c ch, (st.Channels ch).isSome = true →
        ((joinCallback st u c).Channels ch).isSome = true) ∧
    (∀ st o n ch, (st.Channels ch).isSome = true →
        ((nickCallback st o n).Channels ch).isSome = true) ∧
    (∀ st u ch, u ≠ st.currentNick → (st.Channels ch).isSome = true →
        ((quitCallback st u).Channels ch).isSome = true) := by
  refine ⟨⟨by decide, by decide, by decide⟩, ?_, ?_, ?_, ?_⟩
  · intro st u c ch hne h
    rw [ensureUserNotInChannel_nonself st u c hne]
    exact removeCore_keepsChannel st u c ch h
  · intro st u c ch h
    unfold joinCallback
    split
    · exact euc_keepsChannel st u c ch h
    · split
      · exact euc_keepsChannel st u c ch h
      · exact h
  · intro st o n ch h
    unfold nickCallback
    dsimp only
    split
    · exact renameUser_keepsChannel {st with currentNick := n} o n ch h
    · exact renameUser_keepsChannel st o n ch h
  · intro st u ch hne h
    show ((removeUser st u).Channels ch).isSome = true
    unfold removeUser
    dsimp only
    have hfold := foldl_preserve
      (fun s => (s.Channels ch).isSome = true ∧ u ≠ s.currentNick)
      (fun s cname => ensureUserNotInChannel s u cname)
      (fun s a hs => ⟨by
          show ((ensureUserNotInChannel s u a).Channels ch).isSome = true
          rw [ensureUserNotInChannel_nonself s u a hs.2]
          exact removeCore_keepsChannel s u a ch hs.1,
        by
          show u ≠ (ensureUserNotInChannel s u a).currentNick
          rw [ensureUserNotInChannel_currentNick]
          exact hs.2⟩)
      ((((ensureUser st u).Users (Normalize st u)).map UserState.Channels).getD [])
      (ensureUser st u)
      ⟨by rw [ensureUser_Channels]; exact h, by rw [ensureUser_currentNick]; exact hne⟩
    exact hfold.1

/-- C3 witness: a non-self removal on a concrete state keeps the
channel. -/
theorem C3_self_part_teardown_witness :
    ((ensureUserNotInChannel (joinCallback (callback001 initialState "bot") "bot" "#t")
      "alice" "#t").Channels "#t").isSome = true :=
  C3_self_part_teardown.2.1 (joinCallback (callback001 initialState "bot") "bot" "#t")
    "alice" "#t" "#t" (by decide) (by decide)

/-- C4: after the server announces `CASEMAPPING=ascii` through 005, the
value is stored under the normalized key `casemapping`, but ToLower reads
`ISupport "CASEMAPPING"`, which misses it and falls back to the default
`rfc1459`; so ToLower still folds `[` to `{` (rfc1459) instead of leaving
it unchanged (ascii), contradicting ToLower's own documentation. -/
theorem C4_casemapping_bug :
    (callback005 initialState
      ["n", "CASEMAPPING=ascii", "are supported by this server."]).isupport "casemapping"
        = some "ascii" ∧
    ISupport (callback005 initialState
      ["n", "CASEMAPPING=ascii", "are supported by this server."]) "CASEMAPPING"
        = "rfc1459" ∧
    ToLower (callback005 initialState
      ["n", "CASEMAPPING=ascii", "are supported by this server."]) "[" = "\x7b" ∧
    ToLower (callback005 initialState
      ["n", "CASEMAPPING=ascii", "are supported by this server."]) "A" = "a" := by
  decide

/-- C5: after a `CHANTYPES=<chars>` token is applied (against the
spec-modelled callback005Full, since the CHANTYPES case is absent from
src), the channel-type set is exactly the characters of the resolved
value, and IsChannel is true iff the first character of the name is in
that set (false for the empty string). -/
theorem C5_chantypes_rebuild (st : GoState) (v name : String) :
    (callback005Full st ["n", "CHANTYPES=" ++ v, "t"]).chanTypes = v.data ∧
    (IsChannel (callback005Full st ["n", "CHANTYPES=" ++ v, "t"]) name = true ↔
      ∃ r rest, name.data = r :: rest ∧ r ∈ v.data) := by
  have hone : callback005Full st ["n", "CHANTYPES=" ++ v, "t"]
      = apply005TokenFull st ("CHANTYPES=" ++ v) := rfl
  have hsp : splitEq ("CHANTYPES=" ++ v).data = ("CHANTYPES".data, some v.data) := rfl
  have hkey : Normalize st (⟨"CHANTYPES".data⟩ : String) = "chantypes" := by
    show Normalize st "CHANTYPES" = "chantypes"
    unfold Normalize ToLower
    dsimp only
    split
    · rfl
    · split
      · rfl
      · rfl
  have hct : (apply005TokenFull st ("CHANTYPES=" ++ v)).chanTypes = v.data := by
    simp only [apply005TokenFull]
    rw [hsp]
    dsimp only
    rw [hkey]
    rw [if_neg (show ¬ ("chantypes".data.head? = some '-') by decide)]
    rw [if_neg (show ¬ (("chantypes" : String) = "chanmodes") by decide)]
    rw [if_pos rfl]
    show (ISupport {st with isupport := fput st.isupport "chantypes" ⟨v.data⟩} "chantypes").data
      = v.data
    unfold ISupport
    dsimp only
    rw [fput_same]
  constructor
  · rw [hone]
    exact hct
  · rw [hone]
    unfold IsChannel
    rw [hct]
    cases hnd : name.data with
    | nil =>
      constructor
      · intro h
        exact absurd h (by simp)
      · rintro ⟨r, rest, heq, _⟩
        exact absurd heq (by simp)
    | cons r rest =>
      constructor
      · intro h
        exact ⟨r, rest, rfl, of_decide_eq_true h⟩
      · rintro ⟨r2, rest2, heq, hmem⟩
        have : r2 = r := (List.cons_eq_cons.1 heq).1.symm
        subst this
        exact decide_eq_true hmem

/-- C6 (counterexample): a PREFIX token whose value fails to parse does
not leave the previous bijection in place: after `PREFIX=(ov)@+`
establishes `@ ↔ o`, a following `PREFIX=bogus` clears both maps. -/
theorem C6_prefix_parse_failure_cex :
    (callback005 initialState ["n", "PREFIX=(ov)@+", "t"]).prefixModes '@' = some 'o' ∧
    (callback005 (callback005 initialState ["n", "PREFIX=(ov)@+", "t"])
      ["n", "PREFIX=bogus", "t"]).prefixModes '@' = none ∧
    (callback005 (callback005 initialState ["n", "PREFIX=(ov)@+", "t"])
      ["n", "PREFIX=bogus", "t"]).modePrefixes 'o' = none := by
  decide

/-- C6 (amended): a PREFIX token whose value fails to parse (no regular
expression match, or mode and prefix runs of unequal length) is skipped
without crashing, but both maps are first cleared, so afterwards every
prefix-to-mode and mode-to-prefix lookup is `none`. -/
theorem C6_prefix_parse_failure_amended (st : GoState) (v : String)
    (hfail : prefixParseFails v = true) :
    (∀ c, (callback005 st ["n", "PREFIX=" ++ v, "t"]).prefixModes c = none) ∧
    (∀ c, (callback005 st ["n", "PREFIX=" ++ v, "t"]).modePrefixes c = none) := by
  have hone : callback005 st ["n", "PREFIX=" ++ v, "t"]
      = apply005Token st ("PREFIX=" ++ v) := rfl
  have hsp : splitEq ("PREFIX=" ++ v).data = ("PREFIX".data, some v.data) := rfl
  have hkey : Normalize st (⟨"PREFIX".data⟩ : String) = "prefix" := by
    show Normalize st "PREFIX" = "prefix"
    unfold Normalize ToLower
    dsimp only
    split
    · rfl
    · split
      · rfl
      · rfl
  have hred : apply005Token st ("PREFIX=" ++ v) =
      {st with isupport := fput st.isupport "prefix" ⟨v.data⟩,
               prefixModes := fempty, modePrefixes := fempty} := by
    simp only [apply005Token]
    rw [hsp]
    dsimp only [Option.getD_some]
    rw [hkey]
    rw [if_neg (show ¬ ("prefix".data.head? = some '-') by decide)]
    rw [if_neg (show ¬ (("prefix" : String) = "chanmodes") by decide)]
    rw [if_pos rfl]
    have hres : ISupport {st with isupport := fput st.isupport "prefix" (⟨v.data⟩ : String)}
        "prefix" = ⟨v.data⟩ := by
      unfold ISupport
      dsimp only
      rw [fput_same]
    rw [hres]
    unfold prefixParseFails at hfail
    cases hm : findPrefixMatch v.data with
    | none => rfl
    | some pq =>
      rw [hm] at hfail
      dsimp only
      rw [if_pos (of_decide_eq_true hfail)]
  rw [hone, hred]
  exact ⟨fun c => rfl, fun c => rfl⟩

/-- C6 witness: the amended theorem applied at a concrete failing
value. -/
theorem C6_prefix_parse_failure_witness :
    (callback005 initialState ["n", "PREFIX=bogus", "t"]).prefixModes '@' = none :=
  (C6_prefix_parse_failure_amended initialState "bogus" (by decide)).1 '@'

/-- C7 (counterexample): in the state `stC7`, whose prefix bijection
maps `o ↔ @` and `v ↔ +` and whose target `#chan` is a channel name,
mode-string `+o-v` with params `["alice", "bob"]` does not yield two
permission effects: `o` is also in the list-mode class, which shadows
the prefix table, so the first effect is a list addition. -/
theorem C7_permission_modes_cex :
    stC7.modePrefixes 'o' = some '@' ∧ stC7.modePrefixes 'v' = some '+' ∧
    stC7.prefixModes '@' = some 'o' ∧ stC7.prefixModes '+' = some 'v' ∧
    IsChannel stC7 "#chan" = true ∧
    modeCallback stC7 "#chan" "+o-v" ["alice", "bob"] =
      [ModeEffect.listAdd "alice" 'o', ModeEffect.prefixUnset '+' 'v' "bob"] ∧
    modeCallback stC7 "#chan" "+o-v" ["alice", "bob"] ≠
      [ModeEffect.prefixSet '@' 'o' "alice", ModeEffect.prefixUnset '+' 'v' "bob"] := by
  decide

/-- C7 (amended): in any state whose prefix bijection maps `o ↔ @` and
`v ↔ +`, in which `o` and `v` belong to none of the four mode classes,
and whose target is a channel name, mode-string `+o-v` with params
`["alice", "bob"]` yields exactly the two permission effects
`(+, o, alice)` then `(-, v, bob)`: a known permission mode consumes one
parameter regardless of polarity. -/
theorem C7_permission_modes_amended (st : GoState) (target : String)
    (ho : st.modePrefixes 'o' = some '@') (hv : st.modePrefixes 'v' = some '+')
    (hno : ∀ l ∈ st.chanModes, 'o' ∉ l) (hnv : ∀ l ∈ st.chanModes, 'v' ∉ l)
    (hch : IsChannel st target = true) :
    modeCallback st target "+o-v" ["alice", "bob"] =
      [ModeEffect.prefixSet '@' 'o' "alice", ModeEffect.prefixUnset '+' 'v' "bob"] := by
  unfold modeCallback
  rw [hch]
  show interpModes st true '+' ['+', 'o', '-', 'v'] ["alice", "bob"] = _
  have ho0 := not_mem_getD st.chanModes 'o' hno 0
  have ho1 := not_mem_getD st.chanModes 'o' hno 1
  have ho2 := not_mem_getD st.chanModes 'o' hno 2
  have ho3 := not_mem_getD st.chanModes 'o' hno 3
  have hv0 := not_mem_getD st.chanModes 'v' hnv 0
  have hv1 := not_mem_getD st.chanModes 'v' hnv 1
  have hv2 := not_mem_getD st.chanModes 'v' hnv 2
  have hv3 := not_mem_getD st.chanModes 'v' hnv 3
  simp only [List.getD_eq_getElem?_getD] at ho0 ho1 ho2 ho3 hv0 hv1 hv2 hv3
  simp [interpModes, ho, hv, ho0, ho1, ho2, ho3, hv0, hv1, hv2, hv3]

/-- C7 witness: the amended theorem at the concrete state `stC7w`. -/
theorem C7_permission_modes_witness :
    modeCallback stC7w "#chan" "+o-v" ["alice", "bob"] =
      [ModeEffect.prefixSet '@' 'o' "alice", ModeEffect.prefixUnset '+' 'v' "bob"] :=
  C7_permission_modes_amended stC7w "#chan" (by decide) (by decide)
    (by decide) (by decide) (by decide)

/-- C8: during MODE interpretation of a channel target, when the current
mode character's class would consume a parameter but the parameter list
is exhausted, exactly that character is skipped (no effect is emitted
for it) and interpretation continues with the remaining characters of
the mode string. -/
theorem C8_param_starvation (st : GoState) (pol v : Char) (rest : List Char)
    (h : paramNeeded st pol v = true) :
    interpModes st true pol (v :: rest) [] = interpModes st true pol rest [] := by
  unfold paramNeeded at h
  split at h
  · exact absurd h (by simp)
  · rename_i hpm
    split at h
    · rename_i h0
      simp only [List.getD_eq_getElem?_getD] at h0
      simp [interpModes, hpm, h0]
    · rename_i h0
      simp only [List.getD_eq_getElem?_getD] at h0
      split at h
      · rename_i h1
        simp only [List.getD_eq_getElem?_getD] at h1
        simp [interpModes, hpm, h0, h1]
      · rename_i h1
        simp only [List.getD_eq_getElem?_getD] at h1
        split at h
        · rename_i h2
          simp only [List.getD_eq_getElem?_getD] at h2
          have hpol := of_decide_eq_true h
          simp [interpModes, hpm, h0, h1, h2, hpol]
        · rename_i h2
          simp only [List.getD_eq_getElem?_getD] at h2
          split at h
          · exact absurd h (by simp)
          · rename_i h3
            simp only [List.getD_eq_getElem?_getD] at h3
            rcases Option.isSome_iff_exists.1 h with ⟨mp, hmp⟩
            simp [interpModes, hpm, h0, h1, h2, h3, hmp]

/-- C8 witness: starvation on a permission mode at a concrete state. -/
theorem C8_param_starvation_witness :
    interpModes stC7w true '+' ['o', 'v'] [] = interpModes stC7w true '+' ['v'] [] :=
  C8_param_starvation stC7w '+' 'o' ['v'] (by decide)

/-- C9: a JOIN whose actor is not the bot, received while the bot is not
recorded in the target channel, leaves the state unchanged. -/
theorem C9_join_not_actionable (st : GoState) (uname cname : String)
    (h1 : uname ≠ st.currentNick)
    (h2 : UserInChannel st st.currentNick cname = false) :
    joinCallback st uname cname = st := by
  unfold joinCallback
  rw [if_neg h1, h2]
  rfl

/-- C9 witness: a concrete ignored JOIN. -/
theorem C9_join_not_actionable_witness :
    joinCallback (callback001 initialState "bot") "alice" "#x"
      = callback001 initialState "bot" :=
  C9_join_not_actionable (callback001 initialState "bot") "alice" "#x"
    (by decide) (by decide)

/-- C10 (counterexample): a QUIT for a user the store has never seen
leaves behind a user entity with an empty channel set (removeUser's
ensureUser creates it and the empty loop never deletes it). -/
theorem C10_user_lifecycle_cex :
    (quitCallback (callback001 initialState "bot") "alice").Users "alice"
      = some ⟨false, []⟩ ∧
    ¬ usersNonempty (quitCallback (callback001 initialState "bot") "alice") := by
  refine ⟨by decide, ?_⟩
  intro h
  exact h "alice" ⟨false, []⟩ (by decide) rfl

/-- C10 (amended): in every state reachable by handler sequences in which
every QUIT actor and every NICK old-nickname refers (after normalization)
to an existing user entity, every user entity has a non-empty channel
set. -/
theorem C10_user_lifecycle_amended (evs : List Ev)
    (h : traceOkC10 initialState evs = true) :
    usersNonempty (runEvs initialState evs) :=
  runEvs_usersNonempty evs initialState initialState_usersNonempty h

/-- C10 witness: the amended theorem applied to a concrete trace. -/
theorem C10_user_lifecycle_witness :
    usersNonempty (runEvs initialState [Ev.join "" "#a", Ev.part "" "#a"]) :=
  C10_user_lifecycle_amended [Ev.join "" "#a", Ev.part "" "#a"] (by decide)

end Seabird

